import Mathlib

/-!
Shallow embedding of "The OH Race" (grid-world generation, region topology,
heuristic search, and trace simulation) together with proofs of the spec's
testable properties.

Conventions of the embedding:
* Python `random` calls are modelled by an explicit oracle (a list of natural
  numbers).  `random.choice` reads one number and indexes the list with it
  (mod length); `random.shuffle` is a selection shuffle driven by oracle
  numbers (it can realise every permutation and nothing else); comparisons of
  `random.random()` against a threshold strictly between 0 and 1 are modelled
  by one oracle bit (both outcomes are realisable in the source, so this is
  support-faithful).  Every terminating run of the Python code corresponds to
  some finite oracle.
* Python machine integers are arbitrary precision, so scores/timers are `Int`
  and coordinates are `Int × Int`; grid cell ids are `Nat`.
* Unbounded `while` loops (BFS) run on an explicit fuel that dominates the
  loop's real iteration count (each BFS iteration pops one queued cell and a
  cell is queued at most once, so `W*H + 1` iterations suffice).
-/

namespace OHRace

abbrev Pos := Int × Int

abbrev Cell := Nat

abbrev Grid := List (List Cell)

/-- Cell ids, mirroring `aua_world.py`. -/
def EMPTY : Cell := 0

def WALL : Cell := 1

def BRIDGE : Cell := 2

def ANGRY : Cell := 3

def CHAIR : Cell := 4

def OFFICE : Cell := 5

/-- Fixed geometry constants of `aua_world.py` (`MAIN_H`, `PAB_H`,
`BRIDGE_LEN`, `BRIDGE_ROW`, `PAB_ROW_OFFSET`). -/
def MAIN_H : Int := 7

def PAB_H : Int := 5

def BRIDGE_LEN : Int := 3

def BRIDGE_ROW : Int := 3

def PAB_ROW_OFFSET : Int := 2

/-- The dynamic part of the geometry plus the obstacle counts, i.e. the
fields of `CONFIG` consumed by `build_world`. -/
structure Config where
  main_w : Nat
  pab_w : Nat
  walls_main : Nat
  walls_pab : Nat
  angry_main : Nat
  angry_pab : Nat
deriving DecidableEq, Repr

def WORLD_W (cfg : Config) : Int := (cfg.main_w : Int) + BRIDGE_LEN + (cfg.pab_w : Int)

def WORLD_H : Int := MAIN_H

def BRIDGE_ENTRANCE_MAIN (cfg : Config) : Pos := ((cfg.main_w : Int) - 1, BRIDGE_ROW)

def BRIDGE_ENTRANCE_PAB (cfg : Config) : Pos := ((cfg.main_w : Int) + BRIDGE_LEN, BRIDGE_ROW)

/-- `pab_local_to_world`. -/
def pab_local_to_world (cfg : Config) (px py : Nat) : Pos :=
  ((cfg.main_w : Int) + BRIDGE_LEN + (px : Int), PAB_ROW_OFFSET + (py : Int))

/-- `all_main_cells` (same x-major order as the source comprehension). -/
def all_main_cells (cfg : Config) : List Pos :=
  (List.range cfg.main_w).flatMap fun x => (List.range 7).map fun (y : Nat) => ((x : Int), (y : Int))

/-- `all_pab_cells` (same x-major order as the source comprehension). -/
def all_pab_cells (cfg : Config) : List Pos :=
  (List.range cfg.pab_w).flatMap fun x => (List.range 5).map fun (y : Nat) => pab_local_to_world cfg x y

/-- `bridge_cells` (a set in the source; kept as a duplicate-free list). -/
def bridge_cells (cfg : Config) : List Pos :=
  (List.range 3).map fun (c : Nat) => ((cfg.main_w : Int) + (c : Int), BRIDGE_ROW)

/-- `empty_world`. -/
def empty_world (cfg : Config) : Grid :=
  List.replicate 7 (List.replicate (cfg.main_w + 3 + cfg.pab_w) EMPTY)

/-- Grid read `grid[y][x]`.  Every read performed by the embedded code is
guarded to be in bounds with non-negative coordinates, so the default value
of `getD` is never observed. -/
def cellAt (g : Grid) (p : Pos) : Cell :=
  (g.getD p.2.toNat []).getD p.1.toNat 0

/-- Grid write `grid[y][x] = c` (all writes of the source are in bounds;
`List.set` ignores out-of-range indices). -/
def setCell (g : Grid) (p : Pos) (c : Cell) : Grid :=
  g.set p.2.toNat ((g.getD p.2.toNat []).set p.1.toNat c)

/-- Paint every cell of `l` with the value `c` (the `for … grid[y][x] = v`
loops of `build_world`). -/
def paintCells (g : Grid) (l : List Pos) (c : Cell) : Grid :=
  l.foldl (fun acc p => setCell acc p c) g

/-- `neighbors4`: in-bounds axis neighbours, in the source's order
`(+1,0), (-1,0), (0,+1), (0,-1)`. -/
def neighbors4 (cfg : Config) (p : Pos) : List Pos :=
  [(p.1 + 1, p.2), (p.1 - 1, p.2), (p.1, p.2 + 1), (p.1, p.2 - 1)].filter
    fun q => 0 ≤ q.1 && q.1 < WORLD_W cfg && 0 ≤ q.2 && q.2 < WORLD_H

/-- One step of the BFS `while q:` loop: pop the queue head, stop when the
goal is popped, otherwise enqueue unseen unblocked neighbours. -/
def bfsStep (cfg : Config) (g : Grid) (goal : Pos) (blocked : List Cell) :
    Nat → List Pos → List Pos → Bool
  | 0, _, _ => false
  | _, [], _ => false
  | fuel + 1, p :: q, seen =>
    if p = goal then true
    else
      let step := (neighbors4 cfg p).foldl
        (fun (acc : List Pos × List Pos) n =>
          if acc.2.contains n then acc
          else if blocked.contains (cellAt g n) then acc
          else (acc.1 ++ [n], acc.2 ++ [n]))
        (q, seen)
      bfsStep cfg g goal blocked fuel step.1 step.2

/-- `bfs_path_exists`.  The fuel `(W*H).toNat + 1` dominates the number of
pops the Python loop can perform (each popped cell was enqueued, and a cell
enters `seen` at most once). -/
def bfs_path_exists (cfg : Config) (g : Grid) (start goal : Pos) (blocked : List Cell) : Bool :=
  bfsStep cfg g goal blocked ((WORLD_W cfg * WORLD_H).toNat + 1) [start] [start]

/-! ### Randomness oracle -/

abbrev Oracle := List Nat

def nextO (o : Oracle) : Nat × Oracle := (o.headD 0, o.tail)

/-- `random.choice` / `rng.choice`: one oracle number indexes the list.  The
source only calls it on non-empty lists, so the default is never observed. -/
def choiceO {α : Type} [Inhabited α] (l : List α) (o : Oracle) : α × Oracle :=
  let (n, o') := nextO o
  (l.getD (n % l.length) default, o')

/-- A `random.random() < 0.x` test with `0 < 0.x < 1`: both outcomes occur
with positive probability in the source, so one oracle bit is a
support-faithful model. -/
def randBoolO (o : Oracle) : Bool × Oracle :=
  let (n, o') := nextO o
  (n % 2 == 0, o')

/-- Oracle-driven selection shuffle (`random.shuffle`): repeatedly move an
oracle-chosen element to the front.  Its possible outputs are exactly the
permutations of the input. -/
def shuffleGo {α : Type} [Inhabited α] : Nat → List α → Oracle → List α × Oracle
  | 0, _, o => ([], o)
  | _ + 1, [], o => ([], o)
  | fuel + 1, l@(_ :: _), o =>
    let (n, o') := nextO o
    let i := n % l.length
    let rest := shuffleGo fuel (l.eraseIdx i) o'
    (l.getD i default :: rest.1, rest.2)

def shuffleO {α : Type} [Inhabited α] (l : List α) (o : Oracle) : List α × Oracle :=
  shuffleGo l.length l o

/-- `sample_unique`: filter out the excluded cells, fail if fewer than `k`
remain, otherwise shuffle and keep the first `k`.  (Failure raises before the
shuffle in the source, so on failure no randomness is consumed.) -/
def sample_unique (candidates : List Pos) (k : Nat) (o : Oracle) (exclude : List Pos) :
    Option (List Pos × Oracle) :=
  let pool := candidates.filter fun c => !exclude.contains c
  if pool.length < k then none
  else
    let (sh, o') := shuffleO pool o
    some (sh.take k, o')

/-! ### World builder -/

/-- `Placement` (`aua_world.Placement`); the source's `Set[Pos]` fields are
duplicate-free lists here. -/
structure Placement where
  start : Pos
  walls_main : List Pos
  walls_pab : List Pos
  angry_main : List Pos
  angry_pab : List Pos
  chair : Pos
  office : Pos
  bridge : List Pos
deriving DecidableEq, Repr

inductive GenError where
  /-- `RuntimeError("No valid start positions in Main.")` -/
  | noStart : GenError
  /-- `RuntimeError("Failed to generate a solvable world with corridor.")` -/
  | exhausted : GenError
deriving DecidableEq, Repr


def forbidden_bridge (cfg : Config) : List Pos :=
  bridge_cells cfg ++ [BRIDGE_ENTRANCE_MAIN cfg, BRIDGE_ENTRANCE_PAB cfg]

def start_candidates (cfg : Config) : List Pos :=
  (all_main_cells cfg).filter fun c => !(forbidden_bridge cfg).contains c

/-- The safe 2-row corridor computed from the chosen start: the start's row,
plus the row below if it exists, otherwise the row above; columns from the
start to the Main edge. -/
def safe_corridor (cfg : Config) (start : Pos) : List Pos :=
  let corridor_rows : List Int :=
    if start.2 + 1 < MAIN_H then [start.2, start.2 + 1]
    else if 0 ≤ start.2 - 1 then [start.2, start.2 - 1]
    else [start.2]
  ((List.range cfg.main_w).filter fun x => start.1 ≤ (x : Int)).flatMap fun x =>
    (corridor_rows.filter fun ry => 0 ≤ ry && ry < MAIN_H).map fun ry => ((x : Int), ry)

/-- `adj_bad`: adjacent (in bounds) to a `WALL` or `ANGRY` cell. -/
def adj_bad (cfg : Config) (g : Grid) (p : Pos) : Bool :=
  [(p.1 + 1, p.2), (p.1 - 1, p.2), (p.1, p.2 + 1), (p.1, p.2 - 1)].any fun n =>
    0 ≤ n.1 && n.1 < WORLD_W cfg && 0 ≤ n.2 && n.2 < WORLD_H &&
      ((cellAt g n == WALL) || (cellAt g n == ANGRY))

def manhattan (a b : Pos) : Nat :=
  (a.1 - b.1).natAbs + (a.2 - b.2).natAbs

/-- The PAB candidate cells for office/chair/hazard placement: PAB cells not
occupied by PAB walls, bridge or the PAB entrance, and off the entrance
column. -/
def pab_candidates (cfg : Config) (wallsPab : List Pos) : List Pos :=
  (all_pab_cells cfg).filter fun p =>
    !(wallsPab ++ bridge_cells cfg ++ [BRIDGE_ENTRANCE_PAB cfg]).contains p &&
      p.1 != (cfg.main_w : Int) + BRIDGE_LEN

/-- Chair candidates: shuffled PAB candidates that are not the office and
still empty on the grid. -/
def chair_candidates (g : Grid) (office : Pos) (pabCands : List Pos) : List Pos :=
  pabCands.filter fun p => p != office && cellAt g p == EMPTY

/-- Cells eligible for PAB hazards: empty, not office/chair, and not
office-adjacent. -/
def pab_free (g : Grid) (office chair : Pos) (pabCands : List Pos) : List Pos :=
  pabCands.filter fun p =>
    p != office && p != chair && cellAt g p == EMPTY && manhattan p office != 1

/-- One iteration of `build_world`'s `for _ in range(max_tries)` loop, after
the (attempt-independent) start-candidate emptiness check; `none` is the
source's `continue`. -/
def buildAttempt (cfg : Config) (o : Oracle) : Option (Grid × Placement) × Oracle :=
  let grid0 := paintCells (empty_world cfg) (bridge_cells cfg) BRIDGE
  match choiceO (start_candidates cfg) o with
  | (start, o1) =>
  let corridor := safe_corridor cfg start
  match sample_unique (all_main_cells cfg) cfg.walls_main o1
      (forbidden_bridge cfg ++ [start] ++ corridor) with
  | none => (none, o1)
  | some (wallsMain, o2) =>
  let grid1 := paintCells grid0 wallsMain WALL
  match sample_unique (all_pab_cells cfg) cfg.walls_pab o2 (forbidden_bridge cfg) with
  | none => (none, o2)
  | some (wallsPab, o3) =>
  let grid2 := paintCells grid1 wallsPab WALL
  if cellAt grid2 (BRIDGE_ENTRANCE_MAIN cfg) == WALL then (none, o3) else
  if cellAt grid2 (BRIDGE_ENTRANCE_PAB cfg) == WALL then (none, o3) else
  let occupiedMain := wallsMain ++ [start] ++ bridge_cells cfg ++ [BRIDGE_ENTRANCE_MAIN cfg]
  match sample_unique (all_main_cells cfg) cfg.angry_main o3 (occupiedMain ++ corridor) with
  | none => (none, o3)
  | some (angryMain, o4) =>
  let grid3 := paintCells grid2 angryMain ANGRY
  match shuffleO (pab_candidates cfg wallsPab) o4 with
  | (pabCands, o5) =>
  match pabCands.find? fun p => cellAt grid3 p == EMPTY && !adj_bad cfg grid3 p with
  | none => (none, o5)
  | some office =>
  if (chair_candidates grid3 office pabCands).isEmpty then (none, o5) else
  match choiceO (chair_candidates grid3 office pabCands) o5 with
  | (chair, o6) =>
  if (pab_free grid3 office chair pabCands).length < cfg.angry_pab then (none, o6) else
  match shuffleO (pab_free grid3 office chair pabCands) o6 with
  | (pabFreeSh, o7) =>
  let angryPab := pabFreeSh.take cfg.angry_pab
  let grid4 := setCell grid3 office OFFICE
  let grid5 := setCell grid4 chair CHAIR
  let grid6 := paintCells grid5 angryPab ANGRY
  if !bfs_path_exists cfg grid6 start (BRIDGE_ENTRANCE_MAIN cfg) [WALL, CHAIR, ANGRY] then
    (none, o7)
  else if !bfs_path_exists cfg grid6 start office [WALL, CHAIR, ANGRY] then (none, o7)
  else
    (some (grid6,
      { start := start, walls_main := wallsMain, walls_pab := wallsPab,
        angry_main := angryMain, angry_pab := angryPab, chair := chair,
        office := office, bridge := bridge_cells cfg }), o7)

/-- `build_world`: retry `buildAttempt` up to `max_tries` times (the rng
state, i.e. the oracle, persists across attempts).  The source raises its
"no valid start positions" error inside the loop, but the tested condition
does not depend on the attempt, so it is checked once here. -/
def build_world (cfg : Config) : Nat → Oracle → Except GenError (Grid × Placement)
  | 0, _ => .error .exhausted
  | fuel + 1, o =>
    if (start_candidates cfg).isEmpty then .error .noStart
    else
      match buildAttempt cfg o with
      | (some (g, pl), _) => .ok (g, pl)
      | (none, o') => build_world cfg fuel o'


end OHRace

namespace OHRace

/-! ### Basic facts about the sampling primitives and cell inventories -/

theorem contains_false_iff {α : Type} [BEq α] [LawfulBEq α] {l : List α} {a : α} :
    l.contains a = false ↔ a ∉ l := by
  simp

theorem choiceO_mem {α : Type} [Inhabited α] (l : List α) (o : Oracle) (h : l ≠ []) :
    (choiceO l o).1 ∈ l := by
  have hlen : (nextO o).1 % l.length < l.length :=
    Nat.mod_lt _ (List.length_pos.2 h)
  simp only [choiceO]
  rw [List.getD_eq_getElem l default hlen]
  exact List.getElem_mem hlen

theorem shuffleGo_subset {α : Type} [Inhabited α] :
    ∀ (n : Nat) (l : List α) (o : Oracle) (x : α), x ∈ (shuffleGo n l o).1 → x ∈ l := by
  intro n
  induction n with
  | zero => intro l o x hx; simp [shuffleGo] at hx
  | succ n ih =>
    intro l o x hx
    match l with
    | [] => simp [shuffleGo] at hx
    | a :: as =>
      simp only [shuffleGo] at hx
      rcases List.mem_cons.1 hx with h | h
      · subst h
        have hlen : (nextO o).1 % (a :: as).length < (a :: as).length :=
          Nat.mod_lt _ (by simp)
        rw [List.getD_eq_getElem _ default hlen]
        exact List.getElem_mem hlen
      · exact (List.eraseIdx_subset _ _) (ih _ _ _ h)

theorem shuffleO_subset {α : Type} [Inhabited α] (l : List α) (o : Oracle) (x : α)
    (h : x ∈ (shuffleO l o).1) : x ∈ l :=
  shuffleGo_subset _ _ _ _ h

theorem sample_unique_mem {cands : List Pos} {k : Nat} {o : Oracle} {exclude s : List Pos}
    {o' : Oracle} (h : sample_unique cands k o exclude = some (s, o')) :
    ∀ p ∈ s, p ∈ cands ∧ p ∉ exclude := by
  intro p hp
  simp only [sample_unique] at h
  split at h
  · exact absurd h (by simp)
  · have hs : s = ((shuffleO (cands.filter fun c => !exclude.contains c) o).1).take k := by
      have := congrArg (fun x => (Option.getD x ([], [])).1) h
      simpa using this.symm
    rw [hs] at hp
    have hp2 : p ∈ (shuffleO (cands.filter fun c => !exclude.contains c) o).1 :=
      List.take_subset _ _ hp
    have hp3 := shuffleO_subset _ _ _ hp2
    have := List.mem_filter.1 hp3
    refine ⟨this.1, by simpa using this.2⟩

theorem mem_all_main_cells {cfg : Config} {p : Pos} (h : p ∈ all_main_cells cfg) :
    0 ≤ p.1 ∧ p.1 < (cfg.main_w : Int) ∧ 0 ≤ p.2 ∧ p.2 < 7 := by
  obtain ⟨x, hx, hmem⟩ := List.mem_flatMap.1 h
  obtain ⟨y, hy, hp⟩ := List.mem_map.1 hmem
  have hxr := List.mem_range.1 hx
  have hyr := List.mem_range.1 hy
  have h1 : p.1 = (x : Int) := by rw [← hp]
  have h2 : p.2 = (y : Int) := by rw [← hp]
  omega

theorem mem_all_pab_cells {cfg : Config} {p : Pos} (h : p ∈ all_pab_cells cfg) :
    (cfg.main_w : Int) + 3 ≤ p.1 ∧ p.1 < (cfg.main_w : Int) + 3 + (cfg.pab_w : Int) ∧
      2 ≤ p.2 ∧ p.2 < 7 := by
  obtain ⟨x, hx, hmem⟩ := List.mem_flatMap.1 h
  obtain ⟨y, hy, hp⟩ := List.mem_map.1 hmem
  have hxr := List.mem_range.1 hx
  have hyr := List.mem_range.1 hy
  have h1 : p.1 = (cfg.main_w : Int) + 3 + (x : Int) := by rw [← hp]; rfl
  have h2 : p.2 = 2 + (y : Int) := by rw [← hp]; rfl
  omega

theorem mem_bridge_cells {cfg : Config} {p : Pos} (h : p ∈ bridge_cells cfg) :
    (cfg.main_w : Int) ≤ p.1 ∧ p.1 < (cfg.main_w : Int) + 3 ∧ p.2 = 3 := by
  obtain ⟨c, hc, hp⟩ := List.mem_map.1 h
  have hcr := List.mem_range.1 hc
  have h1 : p.1 = (cfg.main_w : Int) + (c : Int) := by rw [← hp]
  have h2 : p.2 = 3 := by rw [← hp]; rfl
  omega

theorem main_pab_cells_disjoint {cfg : Config} {p : Pos}
    (h1 : p ∈ all_main_cells cfg) (h2 : p ∈ all_pab_cells cfg) : False := by
  have a := mem_all_main_cells h1
  have b := mem_all_pab_cells h2
  omega

theorem main_bridge_cells_disjoint {cfg : Config} {p : Pos}
    (h1 : p ∈ all_main_cells cfg) (h2 : p ∈ bridge_cells cfg) : False := by
  have a := mem_all_main_cells h1
  have b := mem_bridge_cells h2
  omega

theorem pab_bridge_cells_disjoint {cfg : Config} {p : Pos}
    (h1 : p ∈ all_pab_cells cfg) (h2 : p ∈ bridge_cells cfg) : False := by
  have a := mem_all_pab_cells h1
  have b := mem_bridge_cells h2
  omega

/-! ### Inversion of a successful generation attempt -/

theorem mem_pab_candidates {cfg : Config} {wallsPab : List Pos} {p : Pos}
    (h : p ∈ pab_candidates cfg wallsPab) :
    p ∈ all_pab_cells cfg ∧ p ∉ wallsPab ∧ p ∉ bridge_cells cfg ∧
      p ≠ BRIDGE_ENTRANCE_PAB cfg := by
  obtain ⟨hmem, hcond⟩ := List.mem_filter.1 h
  simp only [Bool.and_eq_true, Bool.not_eq_true', contains_false_iff, List.mem_append,
    List.mem_singleton, not_or, bne_iff_ne] at hcond
  exact ⟨hmem, hcond.1.1.1, hcond.1.1.2, hcond.1.2⟩

theorem mem_chair_candidates {g : Grid} {office : Pos} {l : List Pos} {p : Pos}
    (h : p ∈ chair_candidates g office l) : p ∈ l ∧ p ≠ office := by
  obtain ⟨hmem, hcond⟩ := List.mem_filter.1 h
  simp only [Bool.and_eq_true, bne_iff_ne] at hcond
  exact ⟨hmem, hcond.1⟩

theorem mem_pab_free {g : Grid} {office chair : Pos} {l : List Pos} {p : Pos}
    (h : p ∈ pab_free g office chair l) : p ∈ l ∧ p ≠ office ∧ p ≠ chair := by
  obtain ⟨hmem, hcond⟩ := List.mem_filter.1 h
  simp only [Bool.and_eq_true, bne_iff_ne] at hcond
  exact ⟨hmem, hcond.1.1.1, hcond.1.1.2⟩

/-- Everything a successful `buildAttempt` guarantees about its output, read
off the sampling exclusions, the candidate filters and the final guards. -/
theorem buildAttempt_ok_facts {cfg : Config} {o o' : Oracle} {g : Grid} {pl : Placement}
    (h : buildAttempt cfg o = (some (g, pl), o')) :
    (∀ p ∈ pl.walls_main, p ∈ all_main_cells cfg ∧ p ∉ forbidden_bridge cfg ∧
        p ≠ pl.start ∧ p ∉ safe_corridor cfg pl.start) ∧
    (∀ p ∈ pl.walls_pab, p ∈ all_pab_cells cfg ∧ p ∉ forbidden_bridge cfg) ∧
    (∀ p ∈ pl.angry_main, p ∈ all_main_cells cfg ∧ p ∉ pl.walls_main ∧ p ≠ pl.start ∧
        p ∉ bridge_cells cfg ∧ p ≠ BRIDGE_ENTRANCE_MAIN cfg ∧ p ∉ safe_corridor cfg pl.start) ∧
    (pl.office ∈ all_pab_cells cfg ∧ pl.office ∉ pl.walls_pab ∧ pl.office ∉ bridge_cells cfg) ∧
    (pl.chair ∈ all_pab_cells cfg ∧ pl.chair ∉ pl.walls_pab ∧ pl.chair ∉ bridge_cells cfg ∧
        pl.chair ≠ pl.office) ∧
    (∀ p ∈ pl.angry_pab, p ∈ all_pab_cells cfg ∧ p ∉ pl.walls_pab ∧ p ∉ bridge_cells cfg ∧
        p ≠ pl.office ∧ p ≠ pl.chair) ∧
    pl.bridge = bridge_cells cfg ∧
    bfs_path_exists cfg g pl.start (BRIDGE_ENTRANCE_MAIN cfg) [WALL, CHAIR, ANGRY] = true ∧
    bfs_path_exists cfg g pl.start pl.office [WALL, CHAIR, ANGRY] = true := by
  simp only [buildAttempt] at h
  split at h
  · simp at h
  rename_i wm o2 heq1
  split at h
  · simp at h
  rename_i wp o3 heq2
  split at h
  · simp at h
  rename_i hentm
  split at h
  · simp at h
  rename_i hentp
  split at h
  · simp at h
  rename_i am o4 heq3
  split at h
  · simp at h
  rename_i office heqOff
  split at h
  · simp at h
  rename_i hchairs
  split at h
  · simp at h
  rename_i hfree
  split at h
  · simp at h
  rename_i hbfs1
  split at h
  · simp at h
  rename_i hbfs2
  injection h with h1 h2
  injection h1 with h3
  injection h3 with hg hpl
  subst hg
  subst hpl
  dsimp only
  refine ⟨?_, ?_, ?_, ?_, ?_, ?_, rfl, by simpa using hbfs1, by simpa using hbfs2⟩
  · intro p hp
    obtain ⟨hmem, hex⟩ := sample_unique_mem heq1 p hp
    simp only [List.mem_append, List.mem_singleton, not_or] at hex
    exact ⟨hmem, hex.1.1, hex.1.2, hex.2⟩
  · intro p hp
    exact sample_unique_mem heq2 p hp
  · intro p hp
    obtain ⟨hmem, hex⟩ := sample_unique_mem heq3 p hp
    simp only [List.mem_append, List.mem_singleton, not_or] at hex
    tauto
  · have hmemO := List.mem_of_find?_eq_some heqOff
    have hmem1 := shuffleO_subset _ _ _ hmemO
    have hfacts := mem_pab_candidates hmem1
    exact ⟨hfacts.1, hfacts.2.1, hfacts.2.2.1⟩
  · have hne : chair_candidates (paintCells (paintCells (paintCells (paintCells
        (empty_world cfg) (bridge_cells cfg) BRIDGE) wm WALL) wp WALL) am ANGRY) office
        ((shuffleO (pab_candidates cfg wp) o4).1) ≠ [] := by
      intro hnil
      rw [hnil] at hchairs
      simp at hchairs
    have hch := choiceO_mem _ ((shuffleO (pab_candidates cfg wp) o4).2) hne
    obtain ⟨hmemPC, hneOff⟩ := mem_chair_candidates hch
    have hmem1 := shuffleO_subset _ _ _ hmemPC
    have hfacts := mem_pab_candidates hmem1
    exact ⟨hfacts.1, hfacts.2.1, hfacts.2.2.1, hneOff⟩
  · intro p hp
    have h1 := List.take_subset _ _ hp
    have h2 := shuffleO_subset _ _ _ h1
    obtain ⟨hmemPC, hneO, hneC⟩ := mem_pab_free h2
    have hmem1 := shuffleO_subset _ _ _ hmemPC
    have hfacts := mem_pab_candidates hmem1
    exact ⟨hfacts.1, hfacts.2.1, hfacts.2.2.1, hneO, hneC⟩

theorem build_world_ok {cfg : Config} :
    ∀ (fuel : Nat) (o : Oracle) (g : Grid) (pl : Placement),
      build_world cfg fuel o = .ok (g, pl) →
      ∃ o1 o2, buildAttempt cfg o1 = (some (g, pl), o2) := by
  intro fuel
  induction fuel with
  | zero => intro o g pl h; simp [build_world] at h
  | succ n ih =>
    intro o g pl h
    simp only [build_world] at h
    split at h
    · simp at h
    · split at h
      · rename_i g1 pl1 o2 heq
        injection h with h1
        injection h1 with hg hpl
        subst hg
        subst hpl
        exact ⟨o, o2, heq⟩
      · rename_i o2 heq
        exact ih _ _ _ h

theorem mem_forbidden_bridge {cfg : Config} {p : Pos} (h : p ∈ forbidden_bridge cfg) :
    p.2 = 3 := by
  simp only [forbidden_bridge, List.mem_append, List.mem_cons, List.mem_singleton,
    List.not_mem_nil, or_false] at h
  rcases h with h | h | h
  · exact (mem_bridge_cells h).2.2
  · subst h; rfl
  · subst h; rfl

theorem bridge_sub_forbidden {cfg : Config} {p : Pos} (h : p ∈ bridge_cells cfg) :
    p ∈ forbidden_bridge cfg := by
  simp only [forbidden_bridge, List.mem_append]
  exact Or.inl h

theorem start_candidates_ne_nil {cfg : Config} (h7 : 7 ≤ cfg.main_w) :
    start_candidates cfg ≠ [] := by
  have h00 : ((0 : Int), (0 : Int)) ∈ start_candidates cfg := by
    simp only [start_candidates, List.mem_filter]
    constructor
    · exact List.mem_flatMap.2 ⟨0, List.mem_range.2 (by omega),
        List.mem_map.2 ⟨0, List.mem_range.2 (by omega), rfl⟩⟩
    · simp only [Bool.not_eq_true', contains_false_iff]
      intro hmem
      have := mem_forbidden_bridge hmem
      simp at this
  intro hnil
  rw [hnil] at h00
  simp at h00

theorem build_world_error {cfg : Config} (hne : start_candidates cfg ≠ []) :
    ∀ (fuel : Nat) (o : Oracle) (e : GenError),
      build_world cfg fuel o = .error e → e = .exhausted := by
  intro fuel
  induction fuel with
  | zero =>
    intro o e h
    simp only [build_world] at h
    injection h with h1
    exact h1.symm
  | succ n ih =>
    intro o e h
    simp only [build_world] at h
    split at h
    · rename_i hempty
      exact absurd (List.isEmpty_iff.1 hempty) hne
    · split at h
      · simp at h
      · exact ih _ _ h

/-- The documented configuration bounds of the setup dialog (§6 of the
spec / `aua_setup.submit`). -/
def ConfigInBounds (cfg : Config) : Prop :=
  7 ≤ cfg.main_w ∧ cfg.main_w ≤ 100 ∧ 4 ≤ cfg.pab_w ∧ cfg.pab_w ≤ 80 ∧
    cfg.angry_main ≤ cfg.main_w ∧ cfg.walls_main ≤ cfg.main_w - cfg.angry_main ∧
    cfg.angry_pab ≤ cfg.pab_w ∧ cfg.walls_pab ≤ cfg.pab_w - cfg.angry_pab

instance : DecidablePred ConfigInBounds := fun cfg => by
  unfold ConfigInBounds
  infer_instance


/-! ### Claim theorems about the world generator (C1, C6, C8) -/

/-- C1: for every seed (oracle) and every parameter combination within the
documented bounds, `build_world` either returns a `(grid, placement)` pair
for which the breadth-first check avoiding `{WALL, CHAIR, ANGRY}` finds a
route from `placement.start` to the Main-side bridge entrance and from
`placement.start` to `placement.office`, or it fails with the
retry-exhaustion error; no other outcome is possible (the only other error,
`noStart`, requires an out-of-bounds configuration). -/
theorem generation_solvability (cfg : Config) (fuel : Nat) (o : Oracle)
    (hb : ConfigInBounds cfg) :
    (∀ g pl, build_world cfg fuel o = .ok (g, pl) →
        bfs_path_exists cfg g pl.start (BRIDGE_ENTRANCE_MAIN cfg) [WALL, CHAIR, ANGRY] = true ∧
        bfs_path_exists cfg g pl.start pl.office [WALL, CHAIR, ANGRY] = true) ∧
    (∀ e, build_world cfg fuel o = .error e → e = GenError.exhausted) := by
  constructor
  · intro g pl h
    obtain ⟨o1, o2, hA⟩ := build_world_ok fuel o g pl h
    have facts := buildAttempt_ok_facts hA
    exact ⟨facts.2.2.2.2.2.2.2.1, facts.2.2.2.2.2.2.2.2⟩
  · intro e h
    exact build_world_error (start_candidates_ne_nil hb.1) fuel o e h

/-- A concrete in-bounds configuration (minimal widths, no obstacles) used
by the witnesses. -/
def cfg0 : Config := ⟨7, 4, 0, 0, 0, 0⟩

/-- The world `build_world cfg0` produces on the empty oracle (first attempt
succeeds). -/
def g0 : Grid :=
  [[0, 0, 0, 0, 0, 0, 0, 0, 0, 0, 0, 0, 0, 0],
   [0, 0, 0, 0, 0, 0, 0, 0, 0, 0, 0, 0, 0, 0],
   [0, 0, 0, 0, 0, 0, 0, 0, 0, 0, 0, 5, 0, 0],
   [0, 0, 0, 0, 0, 0, 0, 2, 2, 2, 0, 4, 0, 0],
   [0, 0, 0, 0, 0, 0, 0, 0, 0, 0, 0, 0, 0, 0],
   [0, 0, 0, 0, 0, 0, 0, 0, 0, 0, 0, 0, 0, 0],
   [0, 0, 0, 0, 0, 0, 0, 0, 0, 0, 0, 0, 0, 0]]

def pl0 : Placement :=
  { start := (0, 0), walls_main := [], walls_pab := [], angry_main := [],
    angry_pab := [], chair := (11, 3), office := (11, 2),
    bridge := [(7, 3), (8, 3), (9, 3)] }

theorem build_world_cfg0_eq : build_world cfg0 1 [] = .ok (g0, pl0) := by rfl

/-- Witness for C1 at the concrete configuration `cfg0`. -/
theorem generation_solvability_witness :
    (∀ g pl, build_world cfg0 1 [] = .ok (g, pl) →
        bfs_path_exists cfg0 g pl.start (BRIDGE_ENTRANCE_MAIN cfg0) [WALL, CHAIR, ANGRY] = true ∧
        bfs_path_exists cfg0 g pl.start pl.office [WALL, CHAIR, ANGRY] = true) ∧
    (∀ e, build_world cfg0 1 [] = .error e → e = GenError.exhausted) :=
  generation_solvability cfg0 1 [] (by decide)

/-- C6: the seven coordinate sets of every returned placement are pairwise
disjoint. -/
theorem placement_disjointness (cfg : Config) (fuel : Nat) (o : Oracle) (g : Grid)
    (pl : Placement) (h : build_world cfg fuel o = .ok (g, pl)) :
    List.Pairwise List.Disjoint
      [pl.walls_main, pl.walls_pab, pl.angry_main, pl.angry_pab,
        [pl.chair], [pl.office], pl.bridge] := by
  obtain ⟨o1, o2, hA⟩ := build_world_ok fuel o g pl h
  obtain ⟨fWM, fWP, fAM, fOff, fCh, fAP, fBr, _, _⟩ := buildAttempt_ok_facts hA
  have sWM : ∀ p ∈ pl.walls_main, p ∈ all_main_cells cfg := fun p hp => (fWM p hp).1
  have sWP : ∀ p ∈ pl.walls_pab, p ∈ all_pab_cells cfg := fun p hp => (fWP p hp).1
  have sAM : ∀ p ∈ pl.angry_main, p ∈ all_main_cells cfg := fun p hp => (fAM p hp).1
  have sAP : ∀ p ∈ pl.angry_pab, p ∈ all_pab_cells cfg := fun p hp => (fAP p hp).1
  have dMP : ∀ (A B : List Pos), (∀ p ∈ A, p ∈ all_main_cells cfg) →
      (∀ p ∈ B, p ∈ all_pab_cells cfg) → A.Disjoint B :=
    fun A B hA hB a ha hb => main_pab_cells_disjoint (hA a ha) (hB a hb)
  have dMB : ∀ (A : List Pos), (∀ p ∈ A, p ∈ all_main_cells cfg) → A.Disjoint pl.bridge := by
    intro A hA a ha hb
    rw [fBr] at hb
    exact main_bridge_cells_disjoint (hA a ha) hb
  have dPB : ∀ (A : List Pos), (∀ p ∈ A, p ∈ all_pab_cells cfg) → A.Disjoint pl.bridge := by
    intro A hA a ha hb
    rw [fBr] at hb
    exact pab_bridge_cells_disjoint (hA a ha) hb
  have memsingle : ∀ (a b : Pos), a ∈ [b] → a = b := by intro a b hab; simpa using hab
  refine List.Pairwise.cons ?_ (List.Pairwise.cons ?_ (List.Pairwise.cons ?_
    (List.Pairwise.cons ?_ (List.Pairwise.cons ?_ (List.Pairwise.cons ?_
      (List.pairwise_singleton _ _))))))
  · intro l hl
    simp only [List.mem_cons, List.mem_singleton, List.not_mem_nil, or_false] at hl
    rcases hl with rfl | rfl | rfl | rfl | rfl | rfl
    · exact dMP _ _ sWM sWP
    · intro a ha hb
      exact (fAM a hb).2.1 ha
    · exact dMP _ _ sWM sAP
    · intro a ha hb
      have hac := memsingle a _ hb
      subst hac
      exact main_pab_cells_disjoint (sWM _ ha) fCh.1
    · intro a ha hb
      have hao := memsingle a _ hb
      subst hao
      exact main_pab_cells_disjoint (sWM _ ha) fOff.1
    · exact dMB _ sWM
  · intro l hl
    simp only [List.mem_cons, List.mem_singleton, List.not_mem_nil, or_false] at hl
    rcases hl with rfl | rfl | rfl | rfl | rfl
    · intro a ha hb
      exact main_pab_cells_disjoint (sAM a hb) (sWP a ha)
    · intro a ha hb
      exact (fAP a hb).2.1 ha
    · intro a ha hb
      have hac := memsingle a _ hb
      subst hac
      exact fCh.2.1 ha
    · intro a ha hb
      have hao := memsingle a _ hb
      subst hao
      exact fOff.2.1 ha
    · exact dPB _ sWP
  · intro l hl
    simp only [List.mem_cons, List.mem_singleton, List.not_mem_nil, or_false] at hl
    rcases hl with rfl | rfl | rfl | rfl
    · exact dMP _ _ sAM sAP
    · intro a ha hb
      have hac := memsingle a _ hb
      subst hac
      exact main_pab_cells_disjoint (sAM _ ha) fCh.1
    · intro a ha hb
      have hao := memsingle a _ hb
      subst hao
      exact main_pab_cells_disjoint (sAM _ ha) fOff.1
    · exact dMB _ sAM
  · intro l hl
    simp only [List.mem_cons, List.mem_singleton, List.not_mem_nil, or_false] at hl
    rcases hl with rfl | rfl | rfl
    · intro a ha hb
      have hac := memsingle a _ hb
      exact (fAP a ha).2.2.2.2 hac
    · intro a ha hb
      have hao := memsingle a _ hb
      exact (fAP a ha).2.2.2.1 hao
    · exact dPB _ sAP
  · intro l hl
    simp only [List.mem_cons, List.mem_singleton, List.not_mem_nil, or_false] at hl
    rcases hl with rfl | rfl
    · intro a ha hb
      have h1 := memsingle a _ ha
      have h2 := memsingle a _ hb
      subst h1
      exact fCh.2.2.2 h2
    · intro a ha hb
      have h1 := memsingle a _ ha
      subst h1
      rw [fBr] at hb
      exact pab_bridge_cells_disjoint fCh.1 hb
  · intro l hl
    simp only [List.mem_cons, List.mem_singleton, List.not_mem_nil, or_false] at hl
    rcases hl with rfl
    intro a ha hb
    have h1 := memsingle a _ ha
    subst h1
    rw [fBr] at hb
    exact pab_bridge_cells_disjoint fOff.1 hb

/-- Witness for C6 at the concrete configuration `cfg0`. -/
theorem placement_disjointness_witness :
    List.Pairwise List.Disjoint
      [pl0.walls_main, pl0.walls_pab, pl0.angry_main, pl0.angry_pab,
        [pl0.chair], [pl0.office], pl0.bridge] :=
  placement_disjointness cfg0 1 [] g0 pl0 build_world_cfg0_eq

/-- C8: no Main wall and no Main hazard of a returned world lies inside the
safe corridor computed from the start (start's row plus the row below when
available, otherwise the row above, from the start's column to the Main-side
bridge-entrance column). -/
theorem safe_corridor_reserved (cfg : Config) (fuel : Nat) (o : Oracle) (g : Grid)
    (pl : Placement) (h : build_world cfg fuel o = .ok (g, pl)) :
    ∀ p ∈ safe_corridor cfg pl.start, p ∉ pl.walls_main ∧ p ∉ pl.angry_main := by
  obtain ⟨o1, o2, hA⟩ := build_world_ok fuel o g pl h
  obtain ⟨fWM, _, fAM, _⟩ := buildAttempt_ok_facts hA
  intro p hp
  constructor
  · intro hw
    exact (fWM p hw).2.2.2 hp
  · intro ha
    exact (fAM p ha).2.2.2.2.2 hp

/-- Witness for C8 at the concrete configuration `cfg0` and the corridor
cell `(0,0)`. -/
theorem safe_corridor_reserved_witness :
    ((0 : Int), (0 : Int)) ∈ safe_corridor cfg0 pl0.start ∧
    ((0 : Int), (0 : Int)) ∉ pl0.walls_main ∧ ((0 : Int), (0 : Int)) ∉ pl0.angry_main :=
  ⟨by decide,
   safe_corridor_reserved cfg0 1 [] g0 pl0 build_world_cfg0_eq ((0 : Int), (0 : Int))
     (by decide)⟩



/-! ### Trace simulator (`controller.fallback_run_with_metrics`) -/

/-- One step record of a trace (`{"pos": …, "score": …, "timer": …,
"reason": …}`). -/
structure StepRec where
  pos : Pos
  score : Int
  timer : Int
  reason : String
deriving DecidableEq, Repr

/-- The bounds check `y < 0 or y >= len(grid) or x < 0 or x >= len(grid[0])`
used by the simulator before reading the grid. -/
def inGridRC (g : Grid) (p : Pos) : Bool :=
  0 ≤ p.2 && p.2 < (g.length : Int) && 0 ≤ p.1 && p.1 < ((g.headD []).length : Int)

/-- The per-coordinate record computation inside the `for p in path:` loop
of `fallback_run_with_metrics`: base cost `max(0, ·−1)` on both resources,
then the cell effects — `ANGRY` costs another 150 (clamped), `CHAIR` zeroes
the score, `OFFICE` marks the goal — with the reason overwritten in that
order. -/
def stepRecOf (g : Grid) (p : Pos) (score timer : Int) : StepRec :=
  let score1 := max 0 (score - 1)
  let timer1 := max 0 (timer - 1)
  let cell := cellAt g p
  let score2 := if cell = ANGRY then max 0 (score1 - 150) else score1
  let reason1 := if cell = ANGRY then "angry" else "normal"
  let score3 := if cell = CHAIR then 0 else score2
  let reason2 := if cell = CHAIR then "chair" else reason1
  let reason3 := if cell = OFFICE then "goal" else reason2
  ⟨p, score3, timer1, reason3⟩

/-- The `for p in path:` loop of `fallback_run_with_metrics`: skip
out-of-bounds coordinates (`continue`), append one record per processed
coordinate and stop after a record with reason chair/goal or an exhausted
resource. -/
def runSteps (g : Grid) : List Pos → Int → Int → List StepRec
  | [], _, _ => []
  | p :: rest, score, timer =>
    if inGridRC g p = false then runSteps g rest score timer
    else
      let r0 := stepRecOf g p score timer
      if r0.reason = "chair" ∨ r0.reason = "goal" ∨ r0.score ≤ 0 ∨ r0.timer ≤ 0 then [r0]
      else r0 :: runSteps g rest r0.score r0.timer

/-- `controller.fallback_run_with_metrics`. -/
def fallback_run_with_metrics (g : Grid) (pl : Placement) (path : List Pos)
    (start_points start_time : Int) : List StepRec :=
  let path1 := if path.isEmpty then [pl.start] else path
  let tr := runSteps g path1 start_points start_time
  if tr.isEmpty then [⟨pl.start, start_points, start_time, "done"⟩] else tr

/-- The `run_with_metrics` helper actually exported (uncommented) by
`search_algorithms.py`: one record per coordinate with the *unchanged*
starting resources and reason "normal"; the controller falls back to
`fallback_run_with_metrics` only when this raises or returns a non-list or
empty value. -/
def run_with_metrics (g : Grid) (pl : Placement) (path : List Pos)
    (start_points start_time : Int) : List StepRec :=
  path.map fun p => ⟨p, start_points, start_time, "normal"⟩

/-! ### The cost model in the words of the specification (for C4) -/

/-- Reason of a step as §4.4/C4 word it ("if the cell is a hazard … reason
angry; if the cell is the chair … reason chair; if the cell is the office …
reason goal"). -/
def c4_reason (g : Grid) (p : Pos) : String :=
  if cellAt g p = ANGRY then "angry"
  else if cellAt g p = CHAIR then "chair"
  else if cellAt g p = OFFICE then "goal"
  else "normal"

/-- Score of a step as C4 words it: decrement by 1, a hazard additionally
subtracts 150, the chair sets it to 0; §4.4's clamping at 0 applies to every
subtraction. -/
def c4_score (g : Grid) (p : Pos) (score : Int) : Int :=
  if cellAt g p = ANGRY then max 0 (max 0 (score - 1) - 150)
  else if cellAt g p = CHAIR then 0
  else max 0 (score - 1)

/-- A terminal record: reason chair/goal, or an exhausted resource (the
records the spec labels no_points / no_time). -/
def c4_terminalB (r : StepRec) : Bool :=
  r.reason == "chair" || r.reason == "goal" || r.score ≤ 0 || r.timer ≤ 0

/-- The trace exactly as C4 describes it: process the coordinates in order,
append one record per coordinate, stop at the first terminal record. -/
def c4_trace (g : Grid) : List Pos → Int → Int → List StepRec
  | [], _, _ => []
  | p :: rest, score, timer =>
    let r : StepRec := ⟨p, c4_score g p score, max 0 (timer - 1), c4_reason g p⟩
    if c4_terminalB r then [r] else r :: c4_trace g rest r.score r.timer

/-! ### Pointwise facts about `stepRecOf` -/

theorem stepRecOf_eq_c4 (g : Grid) (p : Pos) (s t : Int) :
    stepRecOf g p s t = ⟨p, c4_score g p s, max 0 (t - 1), c4_reason g p⟩ := by
  unfold stepRecOf c4_score c4_reason
  by_cases hA : cellAt g p = ANGRY
  · have hC : cellAt g p ≠ CHAIR := by rw [hA]; decide
    have hO : cellAt g p ≠ OFFICE := by rw [hA]; decide
    simp [hA, hC, hO, ANGRY, CHAIR, OFFICE]
  · by_cases hC : cellAt g p = CHAIR
    · have hO : cellAt g p ≠ OFFICE := by rw [hC]; decide
      simp [hA, hC, hO, ANGRY, CHAIR, OFFICE]
    · by_cases hO : cellAt g p = OFFICE
      · simp [hA, hC, hO, ANGRY, CHAIR, OFFICE]
      · have hA2 : cellAt g p ≠ 3 := by simpa [ANGRY] using hA
        have hC2 : cellAt g p ≠ 4 := by simpa [CHAIR] using hC
        have hO2 : cellAt g p ≠ 5 := by simpa [OFFICE] using hO
        simp [hA2, hC2, hO2, ANGRY, CHAIR, OFFICE]

theorem stepRecOf_pos (g : Grid) (p : Pos) (s t : Int) : (stepRecOf g p s t).pos = p := by
  rw [stepRecOf_eq_c4]

theorem stepRecOf_timer (g : Grid) (p : Pos) (s t : Int) :
    (stepRecOf g p s t).timer = max 0 (t - 1) := by
  rw [stepRecOf_eq_c4]

theorem stepRecOf_score_le (g : Grid) (p : Pos) (s t : Int) :
    (stepRecOf g p s t).score ≤ max 0 (s - 1) := by
  rw [stepRecOf_eq_c4]
  show c4_score g p s ≤ max 0 (s - 1)
  unfold c4_score
  split
  · omega
  · split
    · positivity
    · omega

theorem stepRecOf_nonneg (g : Grid) (p : Pos) (s t : Int) :
    0 ≤ (stepRecOf g p s t).score ∧ 0 ≤ (stepRecOf g p s t).timer := by
  rw [stepRecOf_eq_c4]
  refine ⟨?_, by positivity⟩
  show (0:Int) ≤ c4_score g p s
  unfold c4_score
  split
  · positivity
  · split
    · omega
    · positivity

theorem stepRecOf_reason_mem (g : Grid) (p : Pos) (s t : Int) :
    (stepRecOf g p s t).reason = "normal" ∨ (stepRecOf g p s t).reason = "angry" ∨
      (stepRecOf g p s t).reason = "chair" ∨ (stepRecOf g p s t).reason = "goal" := by
  rw [stepRecOf_eq_c4]
  show c4_reason g p = _ ∨ c4_reason g p = _ ∨ c4_reason g p = _ ∨ c4_reason g p = _
  unfold c4_reason
  split
  · tauto
  · split
    · tauto
    · split
      · tauto
      · tauto

theorem c4_terminalB_iff (r : StepRec) :
    c4_terminalB r = true ↔
      (r.reason = "chair" ∨ r.reason = "goal" ∨ r.score ≤ 0 ∨ r.timer ≤ 0) := by
  simp [c4_terminalB, or_assoc]

/-! ### Facts about `runSteps` and the C4 trace -/

theorem runSteps_eq_c4_trace (g : Grid) :
    ∀ (path : List Pos) (s t : Int), (∀ p ∈ path, inGridRC g p = true) →
      runSteps g path s t = c4_trace g path s t := by
  intro path
  induction path with
  | nil => intro s t _; rfl
  | cons p rest ih =>
    intro s t hb
    have hp : inGridRC g p = true := hb p (List.mem_cons_self _ _)
    have hrest : ∀ q ∈ rest, inGridRC g q = true :=
      fun q hq => hb q (List.mem_cons_of_mem _ hq)
    simp only [runSteps, c4_trace, hp, Bool.true_eq_false, if_false, stepRecOf_eq_c4]
    by_cases hterm : c4_terminalB ⟨p, c4_score g p s, max 0 (t - 1), c4_reason g p⟩ = true
    · rw [if_pos ((c4_terminalB_iff _).1 hterm), if_pos hterm]
    · rw [if_neg (fun hc => hterm ((c4_terminalB_iff _).2 hc)), if_neg hterm,
        ih _ _ hrest]

theorem c4_trace_ne_nil (g : Grid) (p : Pos) (rest : List Pos) (s t : Int) :
    c4_trace g (p :: rest) s t ≠ [] := by
  simp only [c4_trace]
  split
  · simp
  · simp

/-- Position bookkeeping of the spec-worded trace: record `i` sits at path
coordinate `i`. -/
theorem c4_trace_pos (g : Grid) :
    ∀ (path : List Pos) (s t : Int) (i : Nat) (r : StepRec),
      (c4_trace g path s t).get? i = some r → path.get? i = some r.pos := by
  intro path
  induction path with
  | nil => intro s t i r h; simp [c4_trace] at h
  | cons p rest ih =>
    intro s t i r h
    simp only [c4_trace] at h
    split at h
    · match i with
      | 0 => simp at h; rw [← h]; rfl
      | i + 1 => simp at h
    · match i with
      | 0 => simp at h; rw [← h]; rfl
      | i + 1 =>
        simp only [List.get?_cons_succ] at h ⊢
        exact ih _ _ _ _ h

/-- Only the last record of the spec-worded trace can be terminal. -/
theorem c4_trace_stops (g : Grid) :
    ∀ (path : List Pos) (s t : Int) (i : Nat) (r r' : StepRec),
      (c4_trace g path s t).get? i = some r →
      (c4_trace g path s t).get? (i + 1) = some r' → c4_terminalB r = false := by
  intro path
  induction path with
  | nil => intro s t i r r' h _; simp [c4_trace] at h
  | cons p rest ih =>
    intro s t i r r' h h'
    simp only [c4_trace] at h h'
    split at h
    · rename_i hterm
      rw [if_pos hterm] at h'
      match i with
      | 0 => simp at h'
      | i + 1 => simp at h'
    · rename_i hterm
      rw [if_neg hterm] at h'
      match i with
      | 0 =>
        simp only [List.get?_cons_zero, Option.some.injEq] at h
        rw [← h]
        simpa using hterm
      | i + 1 =>
        simp only [List.get?_cons_succ] at h h'
        exact ih _ _ _ _ _ h h'

theorem runSteps_record_nonneg (g : Grid) :
    ∀ (path : List Pos) (s t : Int) (r : StepRec), r ∈ runSteps g path s t →
      0 ≤ r.score ∧ 0 ≤ r.timer := by
  intro path
  induction path with
  | nil => intro s t r h; simp [runSteps] at h
  | cons p rest ih =>
    intro s t r h
    simp only [runSteps] at h
    split at h
    · exact ih _ _ _ h
    · split at h
      · simp only [List.mem_singleton] at h
        subst h
        exact stepRecOf_nonneg g p s t
      · simp only [List.mem_cons] at h
        rcases h with h | h
        · subst h
          exact stepRecOf_nonneg g p s t
        · exact ih _ _ _ h

theorem runSteps_not_last_pos (g : Grid) :
    ∀ (path : List Pos) (s t : Int) (i : Nat) (r r' : StepRec),
      (runSteps g path s t).get? i = some r →
      (runSteps g path s t).get? (i + 1) = some r' →
      0 < r.score ∧ 0 < r.timer ∧ r.reason ≠ "chair" ∧ r.reason ≠ "goal" := by
  intro path
  induction path with
  | nil => intro s t i r r' h _; simp [runSteps] at h
  | cons p rest ih =>
    intro s t i r r' h h'
    simp only [runSteps] at h h'
    split at h
    · rename_i hskip
      rw [if_pos hskip] at h'
      exact ih _ _ _ _ _ h h'
    · rename_i hskip
      rw [if_neg hskip] at h'
      split at h
      · rename_i hterm
        rw [if_pos hterm] at h'
        match i with
        | 0 => simp at h'
        | i + 1 => simp at h'
      · rename_i hterm
        rw [if_neg hterm] at h'
        match i with
        | 0 =>
          simp only [List.get?_cons_zero, Option.some.injEq] at h
          subst h
          push_neg at hterm
          exact ⟨by omega, by omega, hterm.1, hterm.2.1⟩
        | i + 1 =>
          simp only [List.get?_cons_succ] at h h'
          exact ih _ _ _ _ _ h h'

theorem runSteps_reason_mem (g : Grid) :
    ∀ (path : List Pos) (s t : Int) (r : StepRec), r ∈ runSteps g path s t →
      r.reason = "normal" ∨ r.reason = "angry" ∨ r.reason = "chair" ∨ r.reason = "goal" := by
  intro path
  induction path with
  | nil => intro s t r h; simp [runSteps] at h
  | cons p rest ih =>
    intro s t r h
    simp only [runSteps] at h
    split at h
    · exact ih _ _ _ h
    · split at h
      · simp only [List.mem_singleton] at h
        subst h
        exact stepRecOf_reason_mem g p s t
      · simp only [List.mem_cons] at h
        rcases h with h | h
        · subst h
          exact stepRecOf_reason_mem g p s t
        · exact ih _ _ _ h

theorem runSteps_head_le (g : Grid) :
    ∀ (path : List Pos) (s t : Int) (r : StepRec),
      (runSteps g path s t).get? 0 = some r →
      r.score ≤ max 0 (s - 1) ∧ r.timer ≤ max 0 (t - 1) := by
  intro path
  induction path with
  | nil => intro s t r h; simp [runSteps] at h
  | cons p rest ih =>
    intro s t r h
    simp only [runSteps] at h
    split at h
    · exact ih _ _ _ h
    · split at h
      · simp only [List.get?_cons_zero, Option.some.injEq] at h
        subst h
        exact ⟨stepRecOf_score_le g p s t, le_of_eq (stepRecOf_timer g p s t)⟩
      · simp only [List.get?_cons_zero, Option.some.injEq] at h
        subst h
        exact ⟨stepRecOf_score_le g p s t, le_of_eq (stepRecOf_timer g p s t)⟩

theorem runSteps_adjacent_le (g : Grid) :
    ∀ (path : List Pos) (s t : Int) (i : Nat) (r r' : StepRec),
      (runSteps g path s t).get? i = some r →
      (runSteps g path s t).get? (i + 1) = some r' →
      r'.score ≤ r.score ∧ r'.timer ≤ r.timer := by
  intro path
  induction path with
  | nil => intro s t i r r' h _; simp [runSteps] at h
  | cons p rest ih =>
    intro s t i r r' h h'
    simp only [runSteps] at h h'
    split at h
    · rename_i hskip
      rw [if_pos hskip] at h'
      exact ih _ _ _ _ _ h h'
    · rename_i hskip
      rw [if_neg hskip] at h'
      split at h
      · rename_i hterm
        rw [if_pos hterm] at h'
        match i with
        | 0 => simp at h'
        | i + 1 => simp at h'
      · rename_i hterm
        rw [if_neg hterm] at h'
        match i with
        | 0 =>
          simp only [List.get?_cons_zero, Option.some.injEq] at h
          simp only [List.get?_cons_succ] at h'
          subst h
          have hnn := stepRecOf_nonneg g p s t
          have hle := runSteps_head_le g rest _ _ r' h'
          obtain ⟨h1, h2⟩ := hle
          obtain ⟨h3, h4⟩ := hnn
          exact ⟨by omega, by omega⟩
        | i + 1 =>
          simp only [List.get?_cons_succ] at h h'
          exact ih _ _ _ _ _ h h'


/-! ### Claim theorems about the trace simulator (C4, C5, C7) -/

/-- C4: for every non-empty path of in-bounds coordinates and all starting
resources, the simulator (`controller.fallback_run_with_metrics`; the
`run_with_metrics` stub exported by `search_algorithms.py` applies no costs
at all and is modelled separately) processes the coordinates in order and
produces exactly the trace the spec describes: per coordinate one record,
both resources decremented by 1 (clamped at 0 per §4.4), a hazard cell
subtracts another 150 with reason "angry", the chair zeroes the score with
reason "chair", the office marks reason "goal", and the trace stops at the
first terminal record. -/
theorem simulator_cost_model (g : Grid) (pl : Placement) (path : List Pos) (s t : Int)
    (hne : path ≠ []) (hb : ∀ p ∈ path, inGridRC g p = true) :
    fallback_run_with_metrics g pl path s t = c4_trace g path s t ∧
    (∀ i r, (fallback_run_with_metrics g pl path s t).get? i = some r →
        path.get? i = some r.pos) ∧
    (∀ i r r', (fallback_run_with_metrics g pl path s t).get? i = some r →
        (fallback_run_with_metrics g pl path s t).get? (i + 1) = some r' →
        c4_terminalB r = false) := by
  obtain ⟨p, rest, rfl⟩ : ∃ p rest, path = p :: rest := by
    cases path with
    | nil => exact absurd rfl hne
    | cons p rest => exact ⟨p, rest, rfl⟩
  have hrw := runSteps_eq_c4_trace g (p :: rest) s t hb
  have hnn := c4_trace_ne_nil g p rest s t
  have heq : fallback_run_with_metrics g pl (p :: rest) s t = c4_trace g (p :: rest) s t := by
    simp only [fallback_run_with_metrics, List.isEmpty_cons, Bool.false_eq_true, if_false, hrw]
    rw [if_neg (by simpa [List.isEmpty_iff] using hnn)]
  refine ⟨heq, ?_, ?_⟩
  · intro i r h
    rw [heq] at h
    exact c4_trace_pos g _ s t i r h
  · intro i r r' h h'
    rw [heq] at h h'
    exact c4_trace_stops g _ s t i r r' h h'

/-- A one-row grid `EMPTY ANGRY EMPTY` for the simulator witnesses. -/
def g5 : Grid := [[0, 3, 0]]

def pl5 : Placement :=
  { start := (0, 0), walls_main := [], walls_pab := [], angry_main := [],
    angry_pab := [], chair := (99, 99), office := (99, 99), bridge := [] }

/-- Witness for C4 on the concrete hazard grid. -/
theorem simulator_cost_model_witness :
    fallback_run_with_metrics g5 pl5 [(0, 0), (1, 0), (2, 0)] 5 300 =
        c4_trace g5 [(0, 0), (1, 0), (2, 0)] 5 300 ∧
    (∀ i r, (fallback_run_with_metrics g5 pl5 [(0, 0), (1, 0), (2, 0)] 5 300).get? i = some r →
        ([(0, 0), (1, 0), (2, 0)] : List Pos).get? i = some r.pos) ∧
    (∀ i r r',
        (fallback_run_with_metrics g5 pl5 [(0, 0), (1, 0), (2, 0)] 5 300).get? i = some r →
        (fallback_run_with_metrics g5 pl5 [(0, 0), (1, 0), (2, 0)] 5 300).get? (i + 1) =
          some r' → c4_terminalB r = false) :=
  simulator_cost_model g5 pl5 [(0, 0), (1, 0), (2, 0)] 5 300 (by decide) (by decide)

/-- C5 as stated is false on the code: with startScore 5 and a hazard as the
second path element, the exhausted record keeps reason "angry" (score
clamped to 0) and the simulation stops there; no record ever carries reason
"no_points" or "no_time". -/
theorem trace_no_points_counterexample :
    fallback_run_with_metrics g5 pl5 [(0, 0), (1, 0), (2, 0)] 5 300 =
      [⟨(0, 0), 4, 299, "normal"⟩, ⟨(1, 0), 0, 298, "angry"⟩] ∧
    (∀ r ∈ fallback_run_with_metrics g5 pl5 [(0, 0), (1, 0), (2, 0)] 5 300,
        r.reason ≠ "no_points" ∧ r.reason ≠ "no_time") := by
  decide

/-- C5 (amended): whenever a record's score or timer is ≤ 0 after cell
effects, the simulation stops at that record (it is the last one) with the
resource clamped to 0; the record keeps the reason assigned by the cell
effects — the labels "no_points"/"no_time" are never written by this
simulator.  In particular, with startScore 5 and a hazard second the trace
ends at the hazard record with score 0 and reason "angry". -/
theorem trace_exhaustion_stops (g : Grid) (pl : Placement) (path : List Pos) (s t : Int)
    (hs : 0 ≤ s) (ht : 0 ≤ t) :
    (∀ i r r', (fallback_run_with_metrics g pl path s t).get? i = some r →
        (fallback_run_with_metrics g pl path s t).get? (i + 1) = some r' →
        0 < r.score ∧ 0 < r.timer) ∧
    (∀ r ∈ fallback_run_with_metrics g pl path s t, 0 ≤ r.score ∧ 0 ≤ r.timer) ∧
    (∀ r ∈ fallback_run_with_metrics g pl path s t,
        r.reason = "normal" ∨ r.reason = "angry" ∨ r.reason = "chair" ∨
          r.reason = "goal" ∨ r.reason = "done") := by
  simp only [fallback_run_with_metrics]
  set path1 := if path.isEmpty then [pl.start] else path with hpath1
  split
  · refine ⟨?_, ?_, ?_⟩
    · intro i r r' h h'
      match i with
      | 0 => simp at h'
      | i + 1 => simp at h
    · intro r hr
      simp only [List.mem_singleton] at hr
      subst hr
      exact ⟨hs, ht⟩
    · intro r hr
      simp only [List.mem_singleton] at hr
      subst hr
      tauto
  · refine ⟨?_, ?_, ?_⟩
    · intro i r r' h h'
      have := runSteps_not_last_pos g _ s t i r r' h h'
      exact ⟨this.1, this.2.1⟩
    · intro r hr
      exact runSteps_record_nonneg g _ s t r hr
    · intro r hr
      have := runSteps_reason_mem g _ s t r hr
      tauto

/-- Witness for the amended C5 on the concrete hazard grid. -/
theorem trace_exhaustion_stops_witness :
    (∀ i r r', (fallback_run_with_metrics g5 pl5 [(0, 0), (1, 0)] 5 300).get? i = some r →
        (fallback_run_with_metrics g5 pl5 [(0, 0), (1, 0)] 5 300).get? (i + 1) = some r' →
        0 < r.score ∧ 0 < r.timer) ∧
    (∀ r ∈ fallback_run_with_metrics g5 pl5 [(0, 0), (1, 0)] 5 300,
        0 ≤ r.score ∧ 0 ≤ r.timer) ∧
    (∀ r ∈ fallback_run_with_metrics g5 pl5 [(0, 0), (1, 0)] 5 300,
        r.reason = "normal" ∨ r.reason = "angry" ∨ r.reason = "chair" ∨
          r.reason = "goal" ∨ r.reason = "done") :=
  trace_exhaustion_stops g5 pl5 [(0, 0), (1, 0)] 5 300 (by decide) (by decide)

/-- C7: along every trace started from non-negative resources, score and
timer are non-increasing from each record to the next and never drop
below 0. -/
theorem trace_monotonic (g : Grid) (pl : Placement) (path : List Pos) (s t : Int)
    (hs : 0 ≤ s) (ht : 0 ≤ t) :
    (∀ i r r', (fallback_run_with_metrics g pl path s t).get? i = some r →
        (fallback_run_with_metrics g pl path s t).get? (i + 1) = some r' →
        r'.score ≤ r.score ∧ r'.timer ≤ r.timer) ∧
    (∀ r ∈ fallback_run_with_metrics g pl path s t, 0 ≤ r.score ∧ 0 ≤ r.timer) := by
  simp only [fallback_run_with_metrics]
  set path1 := if path.isEmpty then [pl.start] else path with hpath1
  split
  · refine ⟨?_, ?_⟩
    · intro i r r' h h'
      match i with
      | 0 => simp at h'
      | i + 1 => simp at h
    · intro r hr
      simp only [List.mem_singleton] at hr
      subst hr
      exact ⟨hs, ht⟩
  · refine ⟨?_, ?_⟩
    · intro i r r' h h'
      exact runSteps_adjacent_le g _ s t i r r' h h'
    · intro r hr
      exact runSteps_record_nonneg g _ s t r hr

/-- Witness for C7 on the concrete hazard grid. -/
theorem trace_monotonic_witness :
    (∀ i r r', (fallback_run_with_metrics g5 pl5 [(0, 0), (1, 0), (2, 0)] 7 300).get? i = some r →
        (fallback_run_with_metrics g5 pl5 [(0, 0), (1, 0), (2, 0)] 7 300).get? (i + 1) = some r' →
        r'.score ≤ r.score ∧ r'.timer ≤ r.timer) ∧
    (∀ r ∈ fallback_run_with_metrics g5 pl5 [(0, 0), (1, 0), (2, 0)] 7 300,
        0 ≤ r.score ∧ 0 ≤ r.timer) :=
  trace_monotonic g5 pl5 [(0, 0), (1, 0), (2, 0)] 7 300 (by decide) (by decide)


/-! ### Region topology and movement (`search_algorithms.py`) -/

/-- `is_in_main(x, y)`. -/
def is_in_main (cfg : Config) (p : Pos) : Bool :=
  (0 ≤ p.1 && p.1 < (cfg.main_w : Int)) && (0 ≤ p.2 && p.2 < WORLD_H)

/-- `is_in_bridge(x, y)`. -/
def is_in_bridge (cfg : Config) (p : Pos) : Bool :=
  ((cfg.main_w : Int) ≤ p.1 && p.1 ≤ (cfg.main_w : Int) + BRIDGE_LEN - 1) &&
    (p.2 == BRIDGE_ROW)

/-- `is_in_pab(x, y)`. -/
def is_in_pab (cfg : Config) (p : Pos) : Bool :=
  ((cfg.main_w : Int) + BRIDGE_LEN ≤ p.1 &&
      p.1 ≤ (cfg.main_w : Int) + BRIDGE_LEN + (cfg.pab_w : Int) - 1) &&
    (PAB_ROW_OFFSET ≤ p.2 && p.2 ≤ PAB_ROW_OFFSET + PAB_H - 1)

def is_valid_region (cfg : Config) (p : Pos) : Bool :=
  is_in_main cfg p || is_in_bridge cfg p || is_in_pab cfg p

/-- `is_walkable(grid, x, y)`: inside a region and not a Wall.  The source's
`try/except` returns False exactly when the (region-guaranteed non-negative)
indices fall outside the grid lists. -/
def is_walkable (cfg : Config) (g : Grid) (p : Pos) : Bool :=
  is_valid_region cfg p &&
    (p.2.toNat < g.length && p.1.toNat < (g.getD p.2.toNat []).length) &&
    (cellAt g p != WALL)

/-- `get_neighbors`: the four axis neighbours, in source order, kept when
walkable and when the zone transition is legal (Main→Main/Bridge,
Pab→Pab/Bridge, Bridge→anything; a position in no zone has no moves). -/
def get_neighbors (cfg : Config) (g : Grid) (pos : Pos) : List Pos :=
  [(pos.1 + 1, pos.2), (pos.1 - 1, pos.2), (pos.1, pos.2 + 1), (pos.1, pos.2 - 1)].filter
    fun n =>
      is_walkable cfg g n &&
        (if is_in_main cfg pos then is_in_main cfg n || is_in_bridge cfg n
         else if is_in_pab cfg pos then is_in_pab cfg n || is_in_bridge cfg n
         else if is_in_bridge cfg pos then
           is_in_main cfg n || is_in_pab cfg n || is_in_bridge cfg n
         else false)

/-- `manhattan` (`abs` of Python ints; the result is the non-negative sum). -/
def manhattanN (a b : Pos) : Nat :=
  ((a.1 - b.1).natAbs + (a.2 - b.2).natAbs)

/-- A coordinate sequence whose consecutive pairs are all legal moves. -/
def chainOk (cfg : Config) (g : Grid) : List Pos → Bool
  | [] => true
  | [_] => true
  | p :: q :: rest => (get_neighbors cfg g p).contains q && chainOk cfg g (q :: rest)

theorem main_not_pab {cfg : Config} {p : Pos} (h1 : is_in_main cfg p = true)
    (h2 : is_in_pab cfg p = true) : False := by
  simp only [is_in_main, is_in_pab, BRIDGE_LEN, WORLD_H, MAIN_H, PAB_ROW_OFFSET, PAB_H,
    Bool.and_eq_true, decide_eq_true_eq] at h1 h2
  omega

theorem mem_get_neighbors_walkable {cfg : Config} {g : Grid} {pos n : Pos}
    (h : n ∈ get_neighbors cfg g pos) : is_walkable cfg g n = true := by
  obtain ⟨_, hcond⟩ := List.mem_filter.1 h
  simp only [Bool.and_eq_true] at hcond
  exact hcond.1

theorem mem_get_neighbors_from_main {cfg : Config} {g : Grid} {pos n : Pos}
    (hm : is_in_main cfg pos = true) (h : n ∈ get_neighbors cfg g pos) :
    is_in_main cfg n = true ∨ is_in_bridge cfg n = true := by
  obtain ⟨_, hcond⟩ := List.mem_filter.1 h
  simp only [Bool.and_eq_true] at hcond
  have h2 := hcond.2
  rw [if_pos hm] at h2
  simpa using h2

theorem mem_get_neighbors_from_pab {cfg : Config} {g : Grid} {pos n : Pos}
    (hp : is_in_pab cfg pos = true) (h : n ∈ get_neighbors cfg g pos) :
    is_in_pab cfg n = true ∨ is_in_bridge cfg n = true := by
  have hm : is_in_main cfg pos = false := by
    cases hmm : is_in_main cfg pos with
    | false => rfl
    | true => exact absurd (main_not_pab hmm hp) not_false
  obtain ⟨_, hcond⟩ := List.mem_filter.1 h
  simp only [Bool.and_eq_true] at hcond
  have h2 := hcond.2
  rw [if_neg (by simp [hm]), if_pos hp] at h2
  simpa using h2

theorem mem_get_neighbors_ne {cfg : Config} {g : Grid} {pos n : Pos}
    (h : n ∈ get_neighbors cfg g pos) : n ≠ pos := by
  obtain ⟨hmem, _⟩ := List.mem_filter.1 h
  simp only [List.mem_cons, List.mem_singleton, List.not_mem_nil, or_false] at hmem
  rcases hmem with h1 | h1 | h1 | h1 <;> (subst h1; intro hcontra) <;>
    (have h1 := congrArg Prod.fst hcontra
     have h2 := congrArg Prod.snd hcontra
     simp at h1 h2)

/-- C3: a Main coordinate and a Pab coordinate are never each other's legal
moves, and every legal-move chain from a Main coordinate to a Pab coordinate
passes through a Bridge cell. -/
theorem main_pab_topology (cfg : Config) (g : Grid) :
    (∀ p q : Pos, is_in_main cfg p = true → is_in_pab cfg q = true →
        q ∉ get_neighbors cfg g p ∧ p ∉ get_neighbors cfg g q) ∧
    (∀ (l : List Pos) (p q : Pos), chainOk cfg g l = true →
        l.head? = some p → l.getLast? = some q →
        is_in_main cfg p = true → is_in_pab cfg q = true →
        ∃ b ∈ l, is_in_bridge cfg b = true) := by
  constructor
  · intro p q hp hq
    constructor
    · intro hmem
      rcases mem_get_neighbors_from_main hp hmem with h | h
      · exact main_not_pab h hq
      · simp only [is_in_bridge, is_in_pab, BRIDGE_LEN, BRIDGE_ROW, PAB_ROW_OFFSET, PAB_H,
          Bool.and_eq_true, decide_eq_true_eq] at h hq
        omega
    · intro hmem
      rcases mem_get_neighbors_from_pab hq hmem with h | h
      · exact main_not_pab hp h
      · simp only [is_in_bridge, is_in_main, BRIDGE_LEN, BRIDGE_ROW, WORLD_H, MAIN_H,
          Bool.and_eq_true, decide_eq_true_eq] at h hp
        omega
  · intro l
    induction l with
    | nil =>
      intro p q _ hp _ _ _
      simp at hp
    | cons a rest ih =>
      intro p q hc hp hq hpm hqp
      simp only [List.head?_cons, Option.some.injEq] at hp
      subst hp
      cases rest with
      | nil =>
        simp only [List.getLast?_singleton, Option.some.injEq] at hq
        subst hq
        exact absurd (main_not_pab hpm hqp) not_false
      | cons b rest2 =>
        have hc' := hc
        simp only [chainOk, Bool.and_eq_true] at hc'
        have hbn : b ∈ get_neighbors cfg g a := by
          have := hc'.1
          simpa [contains_false_iff] using this
        by_cases hbb : is_in_bridge cfg b = true
        · exact ⟨b, List.mem_cons_of_mem _ (List.mem_cons_self _ _), hbb⟩
        · have hbm : is_in_main cfg b = true := by
            rcases mem_get_neighbors_from_main hpm hbn with h | h
            · exact h
            · exact absurd h hbb
          have hq2 : (b :: rest2).getLast? = some q := by
            simpa using hq
          obtain ⟨c, hcmem, hcb⟩ := ih b q hc'.2 rfl hq2 hbm hqp
          exact ⟨c, List.mem_cons_of_mem _ hcmem, hcb⟩

/-- Witness for C3 at the concrete world `g0`. -/
theorem main_pab_topology_witness :
    ((11, 2) ∉ get_neighbors cfg0 g0 (0, 0) ∧ (0, 0) ∉ get_neighbors cfg0 g0 (11, 2)) ∧
    (∃ b ∈ ([(6, 3), (7, 3), (8, 3), (9, 3), (10, 3)] : List Pos),
        is_in_bridge cfg0 b = true) :=
  ⟨(main_pab_topology cfg0 g0).1 (0, 0) (11, 2) (by decide) (by decide),
   (main_pab_topology cfg0 g0).2 [(6, 3), (7, 3), (8, 3), (9, 3), (10, 3)] (6, 3) (10, 3)
     (by decide) (by decide) (by decide) (by decide) (by decide)⟩


/-! ### Path sanitization (C9) -/

/-- `sanitize_path`: walk the raw path, stop (truncate) at the first
out-of-bounds or non-walkable coordinate, keep a Chair/Office coordinate but
stop right after it. -/
def sanitize_path (cfg : Config) (g : Grid) : List Pos → List Pos
  | [] => []
  | p :: rest =>
    if !(0 ≤ p.2 && p.2 < (g.length : Int) && 0 ≤ p.1 && p.1 < ((g.headD []).length : Int)) then
      []
    else if !is_walkable cfg g p then []
    else if cellAt g p = CHAIR ∨ cellAt g p = OFFICE then [p]
    else p :: sanitize_path cfg g rest

/-- The controller's post-sanitization fix-up (`controller.main`):
`if not path or path[0] != start: path = [start] + [p for p in path if p != start]`. -/
def controller_path (cfg : Config) (g : Grid) (start : Pos) (raw : List Pos) : List Pos :=
  match sanitize_path cfg g raw with
  | [] => [start]
  | p :: rest =>
    if p != start then start :: (p :: rest).filter (fun q => q != start)
    else p :: rest

theorem mem_sanitize_walkable {cfg : Config} {g : Grid} :
    ∀ {l : List Pos} {q : Pos}, q ∈ sanitize_path cfg g l → is_walkable cfg g q = true := by
  intro l
  induction l with
  | nil => intro q h; simp [sanitize_path] at h
  | cons p rest ih =>
    intro q h
    simp only [sanitize_path] at h
    split at h
    · simp at h
    · split at h
      · simp at h
      · rename_i hw
        split at h
        · simp only [List.mem_singleton] at h
          subst h
          simpa using hw
        · simp only [List.mem_cons] at h
          rcases h with h | h
          · subst h
            simpa using hw
          · exact ih h

/-- C9 as stated is false: a sanitized path whose first element is not the
start is not discarded — the start is prefixed and the rest kept, so the
simulator receives more than the degenerate single-coordinate path. -/
theorem invalid_path_counterexample :
    controller_path cfg0 g0 (0, 0) [(2, 2)] = [(0, 0), (2, 2)] ∧
    controller_path cfg0 g0 (0, 0) [(2, 2)] ≠ [(0, 0)] := by
  decide

/-- C9 (amended): sanitization truncates the raw path at the first
out-of-bounds or Wall (non-walkable) element instead of discarding it, and
the controller then forces the start to lead the path, keeping the remaining
sanitized (hence walkable) coordinates with other occurrences of `start`
removed; only when the sanitized path is empty does the simulator receive
the degenerate path `[start]`. -/
theorem sanitize_then_prefix (cfg : Config) (g : Grid) (start : Pos) (raw : List Pos) :
    (controller_path cfg g start raw).head? = some start ∧
    (∀ q ∈ controller_path cfg g start raw, q ≠ start → is_walkable cfg g q = true) ∧
    (sanitize_path cfg g raw = [] → controller_path cfg g start raw = [start]) := by
  refine ⟨?_, ?_, ?_⟩
  · unfold controller_path
    split
    · rfl
    · rename_i p rest heq
      split
      · rfl
      · rename_i hps
        have : p = start := by simpa using hps
        rw [this]
        rfl
  · intro q hq hqs
    unfold controller_path at hq
    split at hq
    · simp only [List.mem_singleton] at hq
      exact absurd hq hqs
    · rename_i p rest heq
      split at hq
      · simp only [List.mem_cons] at hq
        rcases hq with hq | hq
        · exact absurd hq hqs
        · have := List.mem_filter.1 hq
          exact mem_sanitize_walkable (heq ▸ this.1)
      · exact mem_sanitize_walkable (heq ▸ hq)
  · intro hnil
    unfold controller_path
    split
    · rfl
    · rename_i p rest heq
      rw [hnil] at heq
      exact absurd heq.symm (List.cons_ne_nil _ _)

/-- Witness for the amended C9 at a concrete raw path. -/
theorem sanitize_then_prefix_witness :
    (controller_path cfg0 g0 (0, 0) [(2, 2), (2, 3)]).head? = some ((0 : Int), (0 : Int)) ∧
    (∀ q ∈ controller_path cfg0 g0 (0, 0) [(2, 2), (2, 3)], q ≠ (0, 0) →
        is_walkable cfg0 g0 q = true) ∧
    (sanitize_path cfg0 g0 [(2, 2), (2, 3)] = [] →
        controller_path cfg0 g0 (0, 0) [(2, 2), (2, 3)] = [(0, 0)]) :=
  sanitize_then_prefix cfg0 g0 (0, 0) [(2, 2), (2, 3)]

/-! ### Algorithm selection validation (C10) -/

def ALGO_ALLOWED : List String := ["hc", "shc", "sa"]

/-- One iteration of `validate_algos`' loop over an agent id: keep a valid,
not-yet-used selection, otherwise fall back to the first unused allowed
algorithm. -/
def assign_algo (used : List String) (a : Option String) : Option String :=
  match a with
  | some s =>
    if ALGO_ALLOWED.contains s && !used.contains s then some s
    else ALGO_ALLOWED.find? fun x => !used.contains x
  | none => ALGO_ALLOWED.find? fun x => !used.contains x

/-- `controller.validate_algos` specialised to the three agents; `none`
would mean the source's loop left that agent unassigned (shown impossible). -/
def validate_algos (r1 r2 r3 : Option String) :
    Option String × Option String × Option String :=
  let a1 := assign_algo [] r1
  let u1 := a1.toList
  let a2 := assign_algo u1 r2
  let u2 := u1 ++ a2.toList
  let a3 := assign_algo u2 r3
  (a1, a2, a3)

theorem assign_algo_spec (used : List String) (r : Option String)
    (h : ∃ x ∈ ALGO_ALLOWED, x ∉ used) :
    ∃ s, assign_algo used r = some s ∧ s ∈ ALGO_ALLOWED ∧ s ∉ used := by
  have hfind : ∃ s, (ALGO_ALLOWED.find? fun x => !used.contains x) = some s ∧
      s ∈ ALGO_ALLOWED ∧ s ∉ used := by
    obtain ⟨x, hx, hxu⟩ := h
    have hsome : (ALGO_ALLOWED.find? fun x => !used.contains x).isSome := by
      rw [List.find?_isSome]
      exact ⟨x, hx, by simpa [contains_false_iff] using hxu⟩
    obtain ⟨s, hs⟩ := Option.isSome_iff_exists.1 hsome
    refine ⟨s, hs, List.mem_of_find?_eq_some hs, ?_⟩
    have := List.find?_some hs
    simpa [contains_false_iff] using this
  match r with
  | none => exact hfind
  | some v =>
    simp only [assign_algo]
    split
    · rename_i hcond
      simp only [Bool.and_eq_true, Bool.not_eq_true', contains_false_iff] at hcond
      exact ⟨v, rfl, by simpa [contains_false_iff] using hcond.1, hcond.2⟩
    · exact hfind

/-- C10: `validate_algos` always outputs a bijection between the three
agents and the three algorithm names, and keeps any already-valid,
duplicate-free selection unchanged. -/
theorem validate_algos_bijection (r1 r2 r3 : Option String) :
    (∃ v1 v2 v3 : String,
      validate_algos r1 r2 r3 = (some v1, some v2, some v3) ∧
      v1 ∈ ALGO_ALLOWED ∧ v2 ∈ ALGO_ALLOWED ∧ v3 ∈ ALGO_ALLOWED ∧
      v1 ≠ v2 ∧ v1 ≠ v3 ∧ v2 ≠ v3 ∧
      (∀ x ∈ ALGO_ALLOWED, x = v1 ∨ x = v2 ∨ x = v3)) ∧
    (∀ b1 b2 b3 : String, r1 = some b1 → r2 = some b2 → r3 = some b3 →
      b1 ∈ ALGO_ALLOWED → b2 ∈ ALGO_ALLOWED → b3 ∈ ALGO_ALLOWED →
      b1 ≠ b2 → b1 ≠ b3 → b2 ≠ b3 →
      validate_algos r1 r2 r3 = (some b1, some b2, some b3)) := by
  constructor
  · obtain ⟨v1, hv1, hv1m, _⟩ := assign_algo_spec [] r1 ⟨"hc", by decide, by decide⟩
    have hex2 : ∃ x ∈ ALGO_ALLOWED, x ∉ [v1] := by
      by_cases hv : v1 = "hc"
      · exact ⟨"shc", by decide, by simp [hv]⟩
      · exact ⟨"hc", by decide, by simp [Ne.symm hv]⟩
    obtain ⟨v2, hv2, hv2m, hv2u⟩ := assign_algo_spec [v1] r2 hex2
    have hne12 : v1 ≠ v2 := fun he => hv2u (by simp [he])
    have hex3 : ∃ x ∈ ALGO_ALLOWED, x ∉ [v1, v2] := by
      have h1 : v1 = "hc" ∨ v1 = "shc" ∨ v1 = "sa" := by simpa [ALGO_ALLOWED] using hv1m
      have h2 : v2 = "hc" ∨ v2 = "shc" ∨ v2 = "sa" := by simpa [ALGO_ALLOWED] using hv2m
      rcases h1 with rfl | rfl | rfl <;> rcases h2 with rfl | rfl | rfl <;>
        first
        | exact absurd rfl hne12
        | decide
    obtain ⟨v3, hv3, hv3m, hv3u⟩ := assign_algo_spec [v1, v2] r3 hex3
    have hne13 : v1 ≠ v3 := fun he => hv3u (by simp [he])
    have hne23 : v2 ≠ v3 := fun he => hv3u (by simp [he])
    refine ⟨v1, v2, v3, ?_, hv1m, hv2m, hv3m, hne12, hne13, hne23, ?_⟩
    · simp only [validate_algos, hv1, Option.toList_some, hv2, List.singleton_append, hv3]
    · intro x hx
      have h1 : v1 = "hc" ∨ v1 = "shc" ∨ v1 = "sa" := by simpa [ALGO_ALLOWED] using hv1m
      have h2 : v2 = "hc" ∨ v2 = "shc" ∨ v2 = "sa" := by simpa [ALGO_ALLOWED] using hv2m
      have h3 : v3 = "hc" ∨ v3 = "shc" ∨ v3 = "sa" := by simpa [ALGO_ALLOWED] using hv3m
      have hxm : x = "hc" ∨ x = "shc" ∨ x = "sa" := by simpa [ALGO_ALLOWED] using hx
      rcases h1 with rfl | rfl | rfl <;> rcases h2 with rfl | rfl | rfl <;>
        rcases h3 with rfl | rfl | rfl <;>
        first
        | exact absurd rfl hne12
        | exact absurd rfl hne13
        | exact absurd rfl hne23
        | tauto
  · intro b1 b2 b3 h1 h2 h3 hb1 hb2 hb3 h12 h13 h23
    subst h1
    subst h2
    subst h3
    have hcont : ∀ b : String, b ∈ ALGO_ALLOWED → ALGO_ALLOWED.contains b = true := by
      intro b hb
      cases hc : ALGO_ALLOWED.contains b with
      | true => rfl
      | false => exact absurd hb (contains_false_iff.1 hc)
    have c1 : assign_algo [] (some b1) = some b1 := by
      have cond1 : (ALGO_ALLOWED.contains b1 && !(List.contains [] b1)) = true := by
        rw [hcont b1 hb1]
        rfl
      simp only [assign_algo]
      rw [if_pos cond1]
    have c2 : assign_algo [b1] (some b2) = some b2 := by
      have hu : List.contains [b1] b2 = false :=
        contains_false_iff.2 (by simpa using Ne.symm h12)
      have cond2 : (ALGO_ALLOWED.contains b2 && !(List.contains [b1] b2)) = true := by
        rw [hcont b2 hb2, hu]
        rfl
      simp only [assign_algo]
      rw [if_pos cond2]
    have c3 : assign_algo [b1, b2] (some b3) = some b3 := by
      have hu : List.contains [b1, b2] b3 = false := by
        refine contains_false_iff.2 ?_
        simp only [List.mem_cons, List.mem_singleton, List.not_mem_nil, or_false]
        rintro (rfl | rfl)
        · exact h13 rfl
        · exact h23 rfl
      have cond3 : (ALGO_ALLOWED.contains b3 && !(List.contains [b1, b2] b3)) = true := by
        rw [hcont b3 hb3, hu]
        rfl
      simp only [assign_algo]
      rw [if_pos cond3]
    simp only [validate_algos, c1, Option.toList_some, c2, List.singleton_append, c3]


/-- Witness for C10 at a concrete invalid/duplicate selection. -/
theorem validate_algos_bijection_witness :
    (∃ v1 v2 v3 : String,
      validate_algos (some "sa") (some "sa") none = (some v1, some v2, some v3) ∧
      v1 ∈ ALGO_ALLOWED ∧ v2 ∈ ALGO_ALLOWED ∧ v3 ∈ ALGO_ALLOWED ∧
      v1 ≠ v2 ∧ v1 ≠ v3 ∧ v2 ≠ v3 ∧
      (∀ x ∈ ALGO_ALLOWED, x = v1 ∨ x = v2 ∨ x = v3)) ∧
    (∀ b1 b2 b3 : String, some "sa" = some b1 → some "sa" = some b2 →
      (none : Option String) = some b3 →
      b1 ∈ ALGO_ALLOWED → b2 ∈ ALGO_ALLOWED → b3 ∈ ALGO_ALLOWED →
      b1 ≠ b2 → b1 ≠ b3 → b2 ≠ b3 →
      validate_algos (some "sa") (some "sa") none = (some b1, some b2, some b3)) :=
  validate_algos_bijection (some "sa") (some "sa") none


/-! ### Search algorithms (`search_algorithms.py`) -/

/-- Stable ascending insertion by key: the element goes before the first
strictly larger key, after equal keys. -/
def insertLe (a : Nat × Pos) : List (Nat × Pos) → List (Nat × Pos)
  | [] => [a]
  | b :: rest => if b.1 < a.1 then b :: insertLe a rest else a :: b :: rest

/-- Python's `list.sort(key=…)` is the (unique) stable ascending sort by
key; a stable insertion sort computes the same list and evaluates
structurally. -/
def sortByKey : List (Nat × Pos) → List (Nat × Pos)
  | [] => []
  | a :: rest => insertLe a (sortByKey rest)

theorem insertLe_subset {a : Nat × Pos} :
    ∀ {l : List (Nat × Pos)} {x : Nat × Pos}, x ∈ insertLe a l → x = a ∨ x ∈ l := by
  intro l
  induction l with
  | nil => intro x hx; simpa [insertLe] using hx
  | cons b rest ih =>
    intro x hx
    simp only [insertLe] at hx
    split at hx
    · rcases List.mem_cons.1 hx with h | h
      · exact Or.inr (by simp [h])
      · rcases ih h with h2 | h2
        · exact Or.inl h2
        · exact Or.inr (List.mem_cons_of_mem _ h2)
    · rcases List.mem_cons.1 hx with h | h
      · exact Or.inl h
      · exact Or.inr h

theorem sortByKey_subset :
    ∀ {l : List (Nat × Pos)} {x : Nat × Pos}, x ∈ sortByKey l → x ∈ l := by
  intro l
  induction l with
  | nil => intro x hx; simpa [sortByKey] using hx
  | cons a rest ih =>
    intro x hx
    simp only [sortByKey] at hx
    rcases insertLe_subset hx with h | h
    · simp [h]
    · exact List.mem_cons_of_mem _ (ih h)

theorem length_insertLe (a : Nat × Pos) :
    ∀ l : List (Nat × Pos), (insertLe a l).length = l.length + 1 := by
  intro l
  induction l with
  | nil => rfl
  | cons b rest ih =>
    simp only [insertLe]
    split
    · simp [ih]
    · simp

theorem length_sortByKey : ∀ l : List (Nat × Pos), (sortByKey l).length = l.length := by
  intro l
  induction l with
  | nil => rfl
  | cons a rest ih =>
    simp only [sortByKey]
    rw [length_insertLe, ih]
    rfl

/-- Index from the back: `l[-k]` for `1 ≤ k ≤ len(l)`. -/
def backElem (l : List Pos) (k : Nat) : Pos := l.getD (l.length - k) (0, 0)

/-- Inner loop of `two_step_best`: fold the second-order Manhattan scores of
one first step `s1`, keeping the strictly best `(score, first step)`. -/
def tsbInner (goal s1 : Pos) : List Pos → Option (Nat × Pos) → Option (Nat × Pos)
  | [], acc => acc
  | s2 :: rest, acc =>
    let sc := manhattanN s2 goal
    let acc2 := match acc with
      | none => some (sc, s1)
      | some (bs, bstep) => if sc < bs then some (sc, s1) else some (bs, bstep)
    tsbInner goal s1 rest acc2

def tsbOuter (cfg : Config) (g : Grid) (goal : Pos) :
    List Pos → Option (Nat × Pos) → Option (Nat × Pos)
  | [], acc => acc
  | s1 :: rest, acc =>
    tsbOuter cfg g goal rest (tsbInner goal s1 (get_neighbors cfg g s1) acc)

/-- `two_step_best` of `hill_climbing`. -/
def two_step_best (cfg : Config) (g : Grid) (goal pos : Pos) : Option Pos :=
  (tsbOuter cfg g goal (get_neighbors cfg g pos) none).map (fun b => b.2)

theorem tsbInner_snd (goal s1 : Pos) :
    ∀ (l : List Pos) (acc : Option (Nat × Pos)) (b : Nat × Pos),
      tsbInner goal s1 l acc = some b →
      b.2 = s1 ∨ ∃ b0, acc = some b0 ∧ b.2 = b0.2 := by
  intro l
  induction l with
  | nil =>
    intro acc b h
    exact Or.inr ⟨b, h, rfl⟩
  | cons s2 rest ih =>
    intro acc b h
    simp only [tsbInner] at h
    rcases ih _ _ h with h2 | ⟨b0, hb0, hbe⟩
    · exact Or.inl h2
    · cases acc with
      | none =>
        simp only [Option.some.injEq] at hb0
        exact Or.inl (by rw [hbe, ← hb0])
      | some bp =>
        simp only at hb0
        split at hb0
        · simp only [Option.some.injEq] at hb0
          exact Or.inl (by rw [hbe, ← hb0])
        · simp only [Option.some.injEq] at hb0
          exact Or.inr ⟨bp, rfl, by rw [hbe, ← hb0]⟩

theorem tsbOuter_snd (cfg : Config) (g : Grid) (goal : Pos) :
    ∀ (l : List Pos) (acc : Option (Nat × Pos)) (b : Nat × Pos),
      tsbOuter cfg g goal l acc = some b →
      b.2 ∈ l ∨ ∃ b0, acc = some b0 ∧ b.2 = b0.2 := by
  intro l
  induction l with
  | nil =>
    intro acc b h
    exact Or.inr ⟨b, h, rfl⟩
  | cons s1 rest ih =>
    intro acc b h
    simp only [tsbOuter] at h
    rcases ih _ _ h with h2 | ⟨b0, hb0, hbe⟩
    · exact Or.inl (List.mem_cons_of_mem _ h2)
    · rcases tsbInner_snd goal s1 _ _ _ hb0 with h3 | ⟨b1, hb1, hbe1⟩
      · rw [hbe, h3]
        exact Or.inl (List.mem_cons_self _ _)
      · exact Or.inr ⟨b1, hb1, hbe.trans hbe1⟩

theorem two_step_best_mem {cfg : Config} {g : Grid} {goal pos s : Pos}
    (h : two_step_best cfg g goal pos = some s) : s ∈ get_neighbors cfg g pos := by
  simp only [two_step_best, Option.map_eq_some'] at h
  obtain ⟨b, hb, hbs⟩ := h
  rcases tsbOuter_snd cfg g goal _ _ _ hb with h2 | ⟨b0, hb0, _⟩
  · rw [← hbs]; exact h2
  · simp at hb0


/-! ### Hill climbing (variant 7 of `search_algorithms.py`) -/

structure HCSt where
  cur : Pos
  path : List Pos
  steps : Nat
  last : Option Pos
  sideways_used : Nat
  visited : List Pos
  counts : Pos → Nat
  max_space : Nat
  o : Oracle

/-- The bookkeeping block repeated in every moving branch of the source:
`last = cur; visited.append(cur); visited_counts[cur] += 1;
max_space = max(max_space, len(visited)); if len(visited) > visited_limit:
visited.pop(0); cur = nxt; path.append(cur)`, with the branch-specific
`sideways_used` value and the oracle threaded through. -/
def hcAdvance (visited_limit : Nat) (st : HCSt) (nxt : Pos) (side : Nat) (o : Oracle) : HCSt :=
  let v1 := st.visited ++ [st.cur]
  let space := max st.max_space v1.length
  let v2 := if visited_limit < v1.length then v1.tail else v1
  { cur := nxt, path := st.path ++ [nxt], steps := st.steps, last := some st.cur,
    sideways_used := side, visited := v2,
    counts := fun q => if q = st.cur then st.counts st.cur + 1 else st.counts q,
    max_space := space, o := o }

/-- The escape ladder after improvement and sideways both fail: two-step
lookahead detour, bounded uphill move (`≤ d_cur + 2`, not the immediate
predecessor), then A-B-A-B oscillation breaking; `none` means the source's
final `break`.  The detour attempt falls through to the bounded uphill
ladder when the detour is missing, trivial or already visited. -/
def hcFallback (cfg : Config) (g : Grid) (goal : Pos) (visited_limit : Nat)
    (st : HCSt) (nbrs : List Pos) (d_cur : Nat) : Option HCSt :=
  let trySafe : Option HCSt :=
    let safe := nbrs.filter fun n =>
      decide (manhattanN n goal ≤ d_cur + 2) && (some n != st.last)
    if !safe.isEmpty then
      let c := choiceO safe st.o
      some (hcAdvance visited_limit st c.1 st.sideways_used c.2)
    else if 4 ≤ st.path.length ∧ backElem st.path 1 = backElem st.path 3 ∧
        backElem st.path 2 = backElem st.path 4 then
      let cand := nbrs.filter fun n => n != backElem st.path 2
      if !cand.isEmpty then
        let c := choiceO cand st.o
        some (hcAdvance visited_limit st c.1 st.sideways_used c.2)
      else none
    else none
  match two_step_best cfg g goal st.cur with
  | some dt =>
    if dt ≠ st.cur ∧ ¬(st.visited.contains dt = true) then
      some (hcAdvance visited_limit st dt st.sideways_used st.o)
    else trySafe
  | none => trySafe

/-- The greedy pick of `hill_climbing`: first unvisited entry of the
key-sorted scored neighbour list, else its overall head. -/
def hcBest (visited : List Pos) (sorted : List (Nat × Pos)) (cur : Pos) : Pos :=
  match sorted.find? fun dn => !visited.contains dn.2 with
  | some dn => dn.2
  | none => (sorted.headD (0, cur)).2

/-- The `for _ in range(max_steps)` loop of `hill_climbing`. -/
def hcLoop (cfg : Config) (g : Grid) (goal : Pos)
    (backtrack_penalty sideways_limit visited_limit : Nat) : Nat → HCSt → HCSt
  | 0, st => st
  | fuel + 1, st0 =>
    let st : HCSt := {st0 with steps := st0.steps + 1}
    if st.cur = goal then st
    else
      let nbrs := get_neighbors cfg g st.cur
      if nbrs.isEmpty then st
      else
        let d_cur := manhattanN st.cur goal
        let scored := nbrs.map fun n =>
          (manhattanN n goal + (if st.last = some n then backtrack_penalty else 0) +
            st.counts n, n)
        let sorted := sortByKey scored
        let best := hcBest st.visited sorted st.cur
        if manhattanN best goal < d_cur then
          hcLoop cfg g goal backtrack_penalty sideways_limit visited_limit fuel
            (hcAdvance visited_limit st best 0 st.o)
        else if manhattanN best goal = d_cur ∧ st.sideways_used < sideways_limit then
          -- third conjunct `random.random() < 0.35` of the source condition,
          -- evaluated (and randomness consumed) only when the first two hold
          let rb := randBoolO st.o
          if rb.1 then
            hcLoop cfg g goal backtrack_penalty sideways_limit visited_limit fuel
              (hcAdvance visited_limit st best (st.sideways_used + 1) rb.2)
          else
            match hcFallback cfg g goal visited_limit {st with o := rb.2} nbrs d_cur with
            | some st2 =>
              hcLoop cfg g goal backtrack_penalty sideways_limit visited_limit fuel st2
            | none => {st with o := rb.2}
        else
          match hcFallback cfg g goal visited_limit st nbrs d_cur with
          | some st2 =>
            hcLoop cfg g goal backtrack_penalty sideways_limit visited_limit fuel st2
          | none => st

/-- `hill_climbing` (path and the `steps`/`space`/`sideways` metrics). -/
def hill_climbing (cfg : Config) (g : Grid) (pl : Placement) (start : Pos) (o : Oracle)
    (max_steps : Nat := 4000) (backtrack_penalty : Nat := 5) (sideways_limit : Nat := 30)
    (visited_limit : Nat := 16) : List Pos × Nat × Nat × Nat :=
  let st0 : HCSt :=
    { cur := start, path := [start], steps := 0, last := none, sideways_used := 0,
      visited := [], counts := fun _ => 0, max_space := 0, o := o }
  let stf := hcLoop cfg g pl.office backtrack_penalty sideways_limit visited_limit max_steps st0
  let path1 := if stf.path.isEmpty then [start] else stf.path
  let path2 := if path1.headD (0, 0) ≠ start then start :: path1 else path1
  (path2, stf.steps, stf.max_space, stf.sideways_used)


/-! ### Simulated annealing (variant 9 of `search_algorithms.py`) -/

structure SASt where
  cur : Pos
  path : List Pos
  steps : Nat
  stagnation : Nat
  visited : Pos → Nat
  last_positions : List Pos
  o : Oracle

/-- The `visited[cur] = visited.get(cur, 0) + 1` map update shared by the
stochastic strategies. -/
def bumpVis (v : Pos → Nat) (c : Pos) : Pos → Nat :=
  fun q => if q = c then v c + 1 else v q

/-- The move options of one `simulated_annealing` iteration: neighbours other
than the position before last, or all neighbours when that excludes
everything. -/
def saOptions (nbrs path : List Pos) : List Pos :=
  let prev2 : Option Pos := if 2 ≤ path.length then some (backElem path 2) else none
  let options0 := nbrs.filter fun n => some n != prev2
  if options0.isEmpty then nbrs else options0

/-- The candidate pick of `simulated_annealing`: a random option, re-drawn
among the options outside the oscillation-guard memory when the first draw
is in it and such options exist. -/
def saPick (last_positions options : List Pos) (o : Oracle) : Pos × Oracle :=
  let c1 := choiceO options o
  if last_positions.contains c1.1 then
    let alt := options.filter fun n => !last_positions.contains n
    if alt.isEmpty then (c1.1, c1.2) else choiceO alt c1.2
  else (c1.1, c1.2)

/-- The `for i in range(max_steps)` loop of `simulated_annealing`.

The temperature is an IEEE float driven by one of three cooling schedules
and is consulted in exactly two Boolean tests: the floor test
`T <= 1e-12` and the Metropolis acceptance `random.random() < exp(-delta/T)`
(with `delta ≥ 1` and `0 < T ≤ t0`, that probability lies strictly between
0 and 1).  Both tests are modelled as oracle bits — a sound
over-approximation of every real temperature trajectory for the safety
properties proved here. -/
def saBody (cfg : Config) (g : Grid) (goal : Pos)
    (stagnation_limit oscillation_memory : Nat) (st1 : SASt) : SASt × Bool :=
  let tb := randBoolO st1.o
  if tb.1 then ({st1 with o := tb.2}, false)
  else
    let st : SASt := {st1 with o := tb.2}
    let nbrs := get_neighbors cfg g st.cur
    if nbrs.isEmpty then (st, false)
    else
      let options := saOptions nbrs st.path
      let pick := saPick st.last_positions options st.o
      let nxt := pick.1
      let lp1 := st.last_positions ++ [nxt]
      let lp2 := if oscillation_memory < lp1.length then lp1.tail else lp1
      let d_cur := manhattanN st.cur goal
      let d_nxt := manhattanN nxt goal
      let acc : Bool × Oracle :=
        if d_nxt ≤ d_cur then (true, pick.2)
        else randBoolO pick.2
      if acc.1 then
        let stag := if d_nxt = d_cur then st.stagnation + 1 else 0
        let vis := bumpVis st.visited st.cur
        let st2 : SASt :=
          { cur := nxt, path := st.path ++ [nxt], steps := st.steps,
            stagnation := stag, visited := vis, last_positions := lp2, o := acc.2 }
        if 12 < vis nxt then (st2, false)
        else if stagnation_limit ≤ stag then (st2, false)
        else if nxt = goal then (st2, false)
        else (st2, true)
      else ({st with last_positions := lp2, o := acc.2}, true)

def saLoop (cfg : Config) (g : Grid) (goal : Pos)
    (stagnation_limit oscillation_memory : Nat) : Nat → SASt → SASt
  | 0, st => st
  | fuel + 1, st0 =>
    let st1 : SASt := {st0 with steps := st0.steps + 1}
    if st1.cur = goal then st1
    else
      match saBody cfg g goal stagnation_limit oscillation_memory st1 with
      | (st2, true) => saLoop cfg g goal stagnation_limit oscillation_memory fuel st2
      | (st2, false) => st2

/-- The final cleaning of `simulated_annealing`: drop consecutive
duplicates (`if not cleaned or cleaned[-1] != p: cleaned.append(p)`). -/
def dedupConsec : List Pos → List Pos
  | [] => []
  | [p] => [p]
  | p :: q :: rest =>
    if q = p then dedupConsec (p :: rest) else p :: dedupConsec (q :: rest)
termination_by l => l.length

/-- `simulated_annealing` (path and the `steps`/`stagnation`/`osc_mem`
metrics; the float `t_final` metric is not modelled). -/
def simulated_annealing (cfg : Config) (g : Grid) (pl : Placement) (start : Pos) (o : Oracle)
    (max_steps : Nat := 6000) (stagnation_limit : Nat := 250)
    (oscillation_memory : Nat := 20) : List Pos × Nat × Nat × Nat :=
  let st0 : SASt :=
    { cur := start, path := [start], steps := 0, stagnation := 0,
      visited := fun _ => 0, last_positions := [], o := o }
  let stf := saLoop cfg g pl.office stagnation_limit oscillation_memory max_steps st0
  let cleaned := dedupConsec stf.path
  let c1 := if cleaned.isEmpty then [start] else cleaned
  let c2 := if c1.headD (0, 0) ≠ start then start :: c1 else c1
  (c2, stf.steps, stf.stagnation, stf.last_positions.length)


/-! ### Stochastic hill climbing with restarts (variant 8) -/

structure RunSt where
  cur : Pos
  last : Option Pos
  path : List Pos
  visited : Pos → Nat
  vlen : Nat
  steps : Nat
  space : Nat
  o : Oracle

/-- The `filtered = [n for n in improving if visited.get(n,0) < 3] or improving`
selection of `run_once`. -/
def shcFiltered (vis : Pos → Nat) (improving : List Pos) : List Pos :=
  let filtered0 := improving.filter fun n => vis n < 3
  if filtered0.isEmpty then improving else filtered0

/-- `random.choice(non_back or filtered)`. -/
def pickNonBack (last : Option Pos) (filtered : List Pos) (o : Oracle) : Pos × Oracle :=
  let non_back := filtered.filter fun n => some n != last
  choiceO (if non_back.isEmpty then filtered else non_back) o

/-- The loop-escape scan `for n in nbrs: total_steps += 1; if n != last and
is_walkable(…): …break`: first eligible element of the shuffled neighbour
list together with the number of elements scanned. -/
def escScan (cfg : Config) (g : Grid) (last : Option Pos) :
    List Pos → Nat → Option Pos × Nat
  | [], k => (none, k)
  | n :: rest, k =>
    if (some n != last) && is_walkable cfg g n then (some n, k + 1)
    else escScan cfg g last rest (k + 1)

/-- The two-step lookahead of `run_once`, skipping first steps visited more
than 3 times. -/
def shcDetour (cfg : Config) (g : Grid) (goal : Pos) (vis : Pos → Nat) :
    List Pos → Option (Nat × Pos) → Option (Nat × Pos)
  | [], acc => acc
  | s1 :: rest, acc =>
    if 3 < vis s1 then shcDetour cfg g goal vis rest acc
    else shcDetour cfg g goal vis rest (tsbInner goal s1 (get_neighbors cfg g s1) acc)

/-- The A-B-A-B oscillation break shared by the tail of `run_once`'s loop;
`none` is the final `break`. -/
def shcOscStep (cfg : Config) (g : Grid) (st : RunSt) (nbrs : List Pos) : Option RunSt :=
  if 4 ≤ st.path.length ∧ backElem st.path 1 = backElem st.path 3 ∧
      backElem st.path 2 = backElem st.path 4 then
    let cand := nbrs.filter fun n => n != backElem st.path 2
    if !cand.isEmpty then
      let c := choiceO cand st.o
      some {st with last := some st.cur, cur := c.1, path := st.path ++ [c.1], o := c.2}
    else none
  else none

/-- The `for _ in range(max_steps)` loop of `run_once` inside
`stochastic_hill_climbing`.  The source's `visited_list` is only ever used
through its length (for the `space` metric), kept here as `vlen`. -/
def shcBody (cfg : Config) (g : Grid) (goal : Pos) (st1 : RunSt) : RunSt × Bool :=
  let vis := bumpVis st1.visited st1.cur
  let vlen := st1.vlen + 1
  let st : RunSt := {st1 with visited := vis, vlen := vlen,
                              space := max st1.space vlen}
  if 5 ≤ vis st.cur then
    let nbrs := get_neighbors cfg g st.cur
    let sh := shuffleO nbrs st.o
    let scan := escScan cfg g st.last sh.1 0
    let st2 : RunSt := {st with steps := st.steps + scan.2, o := sh.2}
    match scan.1 with
    | some n =>
      ({st2 with last := some st2.cur, cur := n, path := st2.path ++ [n]}, true)
    | none => (st2, true)
  else
    let nbrs := get_neighbors cfg g st.cur
    if nbrs.isEmpty then (st, false)
    else
      let d_cur := manhattanN st.cur goal
      let improving := nbrs.filter fun n => manhattanN n goal < d_cur
      let filtered := shcFiltered vis improving
      if !filtered.isEmpty then
        let c := pickNonBack st.last filtered st.o
        ({st with last := some st.cur, cur := c.1, path := st.path ++ [c.1], o := c.2}, true)
      else
        match (shcDetour cfg g goal vis nbrs none).map (fun b => b.2) with
        | some dt =>
          ({st with last := some st.cur, cur := dt, path := st.path ++ [dt]}, true)
        | none =>
          let rb := randBoolO st.o
          let st3 : RunSt := {st with o := rb.2}
          if rb.1 then
            let cand := nbrs.filter fun n => some n != st3.last
            if !cand.isEmpty then
              let c := choiceO cand st3.o
              ({st3 with last := some st3.cur, cur := c.1,
                         path := st3.path ++ [c.1], o := c.2}, true)
            else
              match shcOscStep cfg g st3 nbrs with
              | some st4 => (st4, true)
              | none => (st3, false)
          else
            match shcOscStep cfg g st3 nbrs with
            | some st4 => (st4, true)
            | none => (st3, false)

def shcLoop (cfg : Config) (g : Grid) (goal : Pos) : Nat → RunSt → RunSt
  | 0, st => st
  | fuel + 1, st0 =>
    let st1 : RunSt := {st0 with steps := st0.steps + 1}
    if st1.cur = goal then st1
    else
      match shcBody cfg g goal st1 with
      | (st2, true) => shcLoop cfg g goal fuel st2
      | (st2, false) => st2

/-- One `run_once(start_pos)` call: fresh per-run state, shared
`total_steps`/`max_space` accumulators threaded through. -/
def shcRunOnce (cfg : Config) (g : Grid) (goal : Pos) (max_steps : Nat) (sp : Pos)
    (o : Oracle) (steps space : Nat) : RunSt :=
  shcLoop cfg g goal max_steps
    { cur := sp, last := none, path := [sp], visited := fun _ => 0, vlen := 0,
      steps := steps, space := space, o := o }

/-- The restart candidates: walkable Main cells in the source's row-major
order (`for y in range(len(grid)) for x in range(len(grid[0]))`). -/
def shcCandidates (cfg : Config) (g : Grid) : List Pos :=
  ((List.range g.length).flatMap fun y =>
    (List.range (g.headD []).length).map fun (x : Nat) => ((x : Int), (y : Int))).filter
    fun p => is_walkable cfg g p && is_in_main cfg p

/-- The `for r in range(restarts)` loop: keep the trial with the strictly
smallest final Manhattan distance to the goal. -/
def shcRestarts (cfg : Config) (g : Grid) (goal : Pos) (max_steps : Nat)
    (candidates : List Pos) : Nat → (List Pos × Nat) → Oracle → Nat → Nat →
    (List Pos × Nat) × Oracle × Nat × Nat
  | 0, best, o, steps, space => (best, o, steps, space)
  | r + 1, best, o, steps, space =>
    let c := choiceO candidates o
    let stT := shcRunOnce cfg g goal max_steps c.1 c.2 steps space
    let trial := stT.path
    let td := manhattanN (trial.getLastD (0, 0)) goal
    let best2 := if ¬trial.isEmpty = true ∧ td < best.2 then (trial, td) else best
    shcRestarts cfg g goal max_steps candidates r best2 stT.o stT.steps stT.space

/-- `stochastic_hill_climbing` (path and the `steps`/`restarts`/`space`
metrics). -/
def stochastic_hill_climbing (cfg : Config) (g : Grid) (pl : Placement) (start : Pos)
    (o : Oracle) (max_steps : Nat := 4000) (restarts : Nat := 6) :
    List Pos × Nat × Nat × Nat :=
  let goal := pl.office
  let st1 := shcRunOnce cfg g goal max_steps start o 0 0
  let primary := st1.path
  let primary_dist := manhattanN (primary.getLastD (0, 0)) goal
  let cands0 := shcCandidates cfg g
  let candidates := if cands0.isEmpty then [start] else cands0
  let res := shcRestarts cfg g goal max_steps candidates restarts
    (primary, primary_dist) st1.o st1.steps st1.space
  let bp := res.1.1
  let bp2 :=
    if ¬bp.isEmpty = true ∧ bp.headD (0, 0) ≠ start then
      start :: bp.filter (fun p => p != start)
    else bp
  (bp2, res.2.2.1, restarts, res.2.2.2)


/-! ### C2: chain legality machinery -/

theorem contains_true_iff {α : Type} [BEq α] [LawfulBEq α] {l : List α} {a : α} :
    l.contains a = true ↔ a ∈ l := by
  simp

theorem walkable_ne_wall {cfg : Config} {g : Grid} {p : Pos}
    (h : is_walkable cfg g p = true) : cellAt g p ≠ WALL := by
  simp only [is_walkable, Bool.and_eq_true, bne_iff_ne, ne_eq] at h
  exact h.2

theorem headD_mem {α : Type} {l : List α} (d : α) (h : l ≠ []) : l.headD d ∈ l := by
  cases l with
  | nil => exact absurd rfl h
  | cons a t => exact List.mem_cons_self a t

/-- The path facts maintained by every search loop: the path starts at the
run's start, ends at the current position, and is a legal-move chain. -/
def PathSt (cfg : Config) (g : Grid) (s : Pos) (path : List Pos) (cur : Pos) : Prop :=
  path.head? = some s ∧ path.getLast? = some cur ∧ chainOk cfg g path = true

theorem PathSt.single (cfg : Config) (g : Grid) (s : Pos) : PathSt cfg g s [s] s :=
  ⟨rfl, rfl, rfl⟩

theorem chainOk_append (cfg : Config) (g : Grid) :
    ∀ (l : List Pos) (c n : Pos), chainOk cfg g l = true → l.getLast? = some c →
      n ∈ get_neighbors cfg g c → chainOk cfg g (l ++ [n]) = true := by
  intro l
  induction l with
  | nil => intro c n _ hlast; cases hlast
  | cons p rest ih =>
    intro c n hch hlast hn
    cases rest with
    | nil =>
      have hc : p = c := by
        simpa using hlast
      subst hc
      simp only [List.cons_append, List.nil_append, chainOk, Bool.and_eq_true]
      exact ⟨contains_true_iff.2 hn, trivial⟩
    | cons q rest2 =>
      simp only [chainOk, Bool.and_eq_true] at hch
      have hlast2 : (q :: rest2).getLast? = some c := by
        rw [List.getLast?_cons_cons] at hlast
        exact hlast
      have := ih c n hch.2 hlast2 hn
      simp only [List.cons_append, chainOk, Bool.and_eq_true]
      exact ⟨hch.1, by simpa using this⟩

theorem PathSt.app {cfg : Config} {g : Grid} {s : Pos} {path : List Pos} {cur n : Pos}
    (h : PathSt cfg g s path cur) (hn : n ∈ get_neighbors cfg g cur) :
    PathSt cfg g s (path ++ [n]) n := by
  obtain ⟨h1, h2, h3⟩ := h
  refine ⟨?_, ?_, chainOk_append cfg g path cur n h3 h2 hn⟩
  · cases path with
    | nil => cases h1
    | cons a t => simpa using h1
  · simp

theorem chain_nonwall (cfg : Config) (g : Grid) :
    ∀ (l : List Pos) (s : Pos), l.head? = some s → is_walkable cfg g s = true →
      chainOk cfg g l = true → ∀ p ∈ l, cellAt g p ≠ WALL := by
  intro l
  induction l with
  | nil => intro s h; cases h
  | cons a t ih =>
    intro s hh hw hc p hp
    have ha : a = s := by simpa using hh
    subst ha
    rcases List.mem_cons.1 hp with rfl | hp2
    · exact walkable_ne_wall hw
    · cases t with
      | nil => cases hp2
      | cons b t2 =>
        simp only [chainOk, Bool.and_eq_true] at hc
        have hb : b ∈ get_neighbors cfg g a := contains_true_iff.1 hc.1
        exact ih b rfl (mem_get_neighbors_walkable hb) hc.2 p hp2


theorem hcBest_mem {visited : List Pos} {nbrs : List Pos} (f : Pos → Nat) {cur : Pos}
    (h : nbrs ≠ []) :
    hcBest visited (sortByKey (nbrs.map fun n => (f n, n))) cur ∈ nbrs := by
  unfold hcBest
  split
  · rename_i dn hdn
    have h1 : dn ∈ sortByKey (nbrs.map fun n => (f n, n)) :=
      List.mem_of_find?_eq_some hdn
    have h2 := sortByKey_subset h1
    obtain ⟨n, hn, he⟩ := List.mem_map.1 h2
    rw [← he]
    exact hn
  · have hne : sortByKey (nbrs.map fun n => (f n, n)) ≠ [] := by
      intro hnil
      have := length_sortByKey (nbrs.map fun n => (f n, n))
      rw [hnil] at this
      simp at this
      exact h (List.eq_nil_of_length_eq_zero this.symm ▸ rfl)
    have h1 := headD_mem ((0, cur) : Nat × Pos) hne
    have h2 := sortByKey_subset h1
    obtain ⟨n, hn, he⟩ := List.mem_map.1 h2
    rw [← he]
    exact hn

theorem saPick_mem (lp options : List Pos) (o : Oracle) (h : options ≠ []) :
    (saPick lp options o).1 ∈ options := by
  simp only [saPick]
  split
  · split
    · exact choiceO_mem options o h
    · rename_i halt
      have halt2 : (options.filter fun n => !lp.contains n) ≠ [] := by
        intro hnil
        rw [hnil] at halt
        simp at halt
      exact (List.mem_filter.1
        (choiceO_mem (options.filter fun n => !lp.contains n) _ halt2)).1
  · exact choiceO_mem options o h

theorem escScan_fst_mem (cfg : Config) (g : Grid) (last : Option Pos) :
    ∀ (l : List Pos) (k : Nat) (n : Pos),
      (escScan cfg g last l k).1 = some n → n ∈ l := by
  intro l
  induction l with
  | nil => intro k n hn; simp [escScan] at hn
  | cons x rest ih =>
    intro k n hn
    rw [escScan] at hn
    split at hn
    · have : x = n := by simpa using hn
      exact this ▸ List.mem_cons_self x rest
    · exact List.mem_cons_of_mem _ (ih (k + 1) n hn)

theorem shcDetour_snd (cfg : Config) (g : Grid) (goal : Pos) (vis : Pos → Nat) :
    ∀ (l : List Pos) (acc : Option (Nat × Pos)) (b : Nat × Pos),
      shcDetour cfg g goal vis l acc = some b →
      b.2 ∈ l ∨ ∃ b0, acc = some b0 ∧ b.2 = b0.2 := by
  intro l
  induction l with
  | nil =>
    intro acc b hb
    simp only [shcDetour] at hb
    exact Or.inr ⟨b, hb, rfl⟩
  | cons s1 rest ih =>
    intro acc b hb
    rw [shcDetour] at hb
    split at hb
    · rcases ih acc b hb with h1 | ⟨b0, hb0, he⟩
      · exact Or.inl (List.mem_cons_of_mem _ h1)
      · exact Or.inr ⟨b0, hb0, he⟩
    · rcases ih _ b hb with h1 | ⟨b0, hb0, he⟩
      · exact Or.inl (List.mem_cons_of_mem _ h1)
      · rcases tsbInner_snd goal s1 _ _ _ hb0 with h2 | ⟨b1, hb1, he1⟩
        · exact Or.inl (he ▸ h2 ▸ List.mem_cons_self s1 rest)
        · exact Or.inr ⟨b1, hb1, he.trans he1⟩

theorem shcOscStep_some (cfg : Config) (g : Grid) (st : RunSt) (nbrs : List Pos)
    (st4 : RunSt) (h : shcOscStep cfg g st nbrs = some st4) :
    ∃ c ∈ nbrs, st4.path = st.path ++ [c] ∧ st4.cur = c := by
  simp only [shcOscStep] at h
  split at h
  · split at h
    · rename_i hcand
      have hcand2 : (nbrs.filter fun n => n != backElem st.path 2) ≠ [] := by
        intro hnil
        rw [hnil] at hcand
        simp at hcand
      have hm := choiceO_mem (nbrs.filter fun n => n != backElem st.path 2) st.o hcand2
      refine ⟨(choiceO (nbrs.filter fun n => n != backElem st.path 2) st.o).1,
        (List.mem_filter.1 hm).1, ?_, ?_⟩
      · rw [← congrArg RunSt.path (Option.some.inj h)]
      · rw [← congrArg RunSt.cur (Option.some.inj h)]
    · cases h
  · cases h

theorem dedupConsec_eq_of_chain (cfg : Config) (g : Grid) :
    ∀ l : List Pos, chainOk cfg g l = true → dedupConsec l = l := by
  intro l
  induction l with
  | nil => intro _; simp [dedupConsec]
  | cons a t ih =>
    intro hc
    cases t with
    | nil => simp [dedupConsec]
    | cons q rest =>
      simp only [chainOk, Bool.and_eq_true] at hc
      have hq : q ∈ get_neighbors cfg g a := contains_true_iff.1 hc.1
      have hne : q ≠ a := mem_get_neighbors_ne hq
      rw [dedupConsec, if_neg hne]
      rw [ih hc.2]


theorem hcFallback_some (cfg : Config) (g : Grid) (goal : Pos) (vl : Nat) (st : HCSt)
    (nbrs : List Pos) (d : Nat) (st2 : HCSt)
    (h : hcFallback cfg g goal vl st nbrs d = some st2) :
    ∃ c, (c ∈ nbrs ∨ c ∈ get_neighbors cfg g st.cur) ∧
      st2.path = st.path ++ [c] ∧ st2.cur = c := by
  simp only [hcFallback] at h
  have handle : ∀ (l : List Pos) (side : Nat),
      l ≠ [] → (∀ x ∈ l, x ∈ nbrs) →
      some (hcAdvance vl st (choiceO l st.o).1 side (choiceO l st.o).2) = some st2 →
      ∃ c, (c ∈ nbrs ∨ c ∈ get_neighbors cfg g st.cur) ∧
        st2.path = st.path ++ [c] ∧ st2.cur = c := by
    intro l side hl hsub he
    obtain rfl : st2 = _ := (Option.some.inj he).symm
    exact ⟨(choiceO l st.o).1, Or.inl (hsub _ (choiceO_mem l st.o hl)),
      by simp [hcAdvance], by simp [hcAdvance]⟩
  split at h
  · rename_i dt hdt
    split at h
    · obtain rfl : st2 = _ := (Option.some.inj h).symm
      exact ⟨dt, Or.inr (two_step_best_mem hdt), by simp [hcAdvance], by simp [hcAdvance]⟩
    · split at h
      · rename_i hsafe
        refine handle _ _ (fun hnil => by rw [hnil] at hsafe; simp at hsafe)
          (fun x hx => (List.mem_filter.1 hx).1) h
      · split at h
        · split at h
          · rename_i hcand
            refine handle _ _ (fun hnil => by rw [hnil] at hcand; simp at hcand)
              (fun x hx => (List.mem_filter.1 hx).1) h
          · cases h
        · cases h
  · split at h
    · rename_i hsafe
      refine handle _ _ (fun hnil => by rw [hnil] at hsafe; simp at hsafe)
        (fun x hx => (List.mem_filter.1 hx).1) h
    · split at h
      · split at h
        · rename_i hcand
          refine handle _ _ (fun hnil => by rw [hnil] at hcand; simp at hcand)
            (fun x hx => (List.mem_filter.1 hx).1) h
        · cases h
      · cases h

theorem hcLoop_inv (cfg : Config) (g : Grid) (goal : Pos) (bp sl vl : Nat) (s : Pos) :
    ∀ (fuel : Nat) (st : HCSt), PathSt cfg g s st.path st.cur →
      PathSt cfg g s (hcLoop cfg g goal bp sl vl fuel st).path
        (hcLoop cfg g goal bp sl vl fuel st).cur := by
  intro fuel
  induction fuel with
  | zero => intro st h; simpa only [hcLoop] using h
  | succ n ih =>
    intro st h
    simp only [hcLoop]
    split
    · exact h
    · split
      · exact h
      · rename_i hne
        have hnb : get_neighbors cfg g st.cur ≠ [] := by
          intro hnil
          rw [hnil] at hne
          simp at hne
        split
        · exact ih _ (h.app (hcBest_mem _ hnb))
        · split
          · split
            · exact ih _ (h.app (hcBest_mem _ hnb))
            · split
              · rename_i st2 heq
                obtain ⟨c, hc, hp, hcur⟩ := hcFallback_some cfg g goal vl _ _ _ _ heq
                have h2 : PathSt cfg g s st2.path st2.cur := by
                  rw [hp, hcur]
                  exact h.app (by rcases hc with hc | hc
                                  · exact hc
                                  · exact hc)
                exact ih _ h2
              · exact h
          · split
            · rename_i st2 heq
              obtain ⟨c, hc, hp, hcur⟩ := hcFallback_some cfg g goal vl _ _ _ _ heq
              have h2 : PathSt cfg g s st2.path st2.cur := by
                rw [hp, hcur]
                exact h.app (by rcases hc with hc | hc
                                · exact hc
                                · exact hc)
              exact ih _ h2
            · exact h


theorem saOptions_subset {nbrs path : List Pos} {x : Pos}
    (h : x ∈ saOptions nbrs path) : x ∈ nbrs := by
  simp only [saOptions] at h
  split at h
  all_goals split at h
  all_goals first
    | exact h
    | exact (List.mem_filter.1 h).1

theorem saOptions_ne_nil (nbrs path : List Pos) (h : nbrs ≠ []) :
    saOptions nbrs path ≠ [] := by
  simp only [saOptions]
  split
  all_goals split
  all_goals first
    | exact h
    | (rename_i hf
       intro hnil
       rw [hnil] at hf
       simp at hf)

theorem shcFiltered_subset {vis : Pos → Nat} {l : List Pos} {x : Pos}
    (h : x ∈ shcFiltered vis l) : x ∈ l := by
  simp only [shcFiltered] at h
  split at h
  · exact h
  · exact (List.mem_filter.1 h).1

theorem pickNonBack_mem (last : Option Pos) {filtered : List Pos} {o : Oracle}
    (h : filtered ≠ []) : (pickNonBack last filtered o).1 ∈ filtered := by
  simp only [pickNonBack]
  split
  · exact choiceO_mem _ _ h
  · rename_i hf
    exact (List.mem_filter.1 (choiceO_mem _ _ fun hnil => by
      rw [hnil] at hf; simp at hf)).1

theorem saBody_path (cfg : Config) (g : Grid) (goal : Pos) (stl om : Nat) (s : Pos)
    (st : SASt) (h : PathSt cfg g s st.path st.cur) :
    PathSt cfg g s (saBody cfg g goal stl om st).1.path
      (saBody cfg g goal stl om st).1.cur := by
  simp only [saBody]
  split
  · exact h
  · split
    · exact h
    · rename_i hne
      have hnb : get_neighbors cfg g st.cur ≠ [] := fun hnil => by
        rw [hnil] at hne; simp at hne
      have hmem := saOptions_subset (saPick_mem st.last_positions _
        (randBoolO st.o).2 (saOptions_ne_nil _ st.path hnb))
      repeat' split
      all_goals first
        | exact h.app hmem
        | exact h

theorem shcBody_path (cfg : Config) (g : Grid) (goal : Pos) (s : Pos)
    (st : RunSt) (h : PathSt cfg g s st.path st.cur) :
    PathSt cfg g s (shcBody cfg g goal st).1.path (shcBody cfg g goal st).1.cur := by
  simp only [shcBody]
  split
  · split
    · rename_i m heq
      exact h.app (shuffleO_subset _ _ _ (escScan_fst_mem cfg g _ _ _ _ heq))
    · exact h
  · split
    · exact h
    · rename_i hne
      have hnb : get_neighbors cfg g st.cur ≠ [] := fun hnil => by
        rw [hnil] at hne; simp at hne
      split
      · rename_i hfil
        exact h.app ((List.mem_filter.1 (shcFiltered_subset
          (pickNonBack_mem _ fun hnil => by rw [hnil] at hfil; simp at hfil))).1)
      · split
        · rename_i dt heq
          obtain ⟨b, hb, hbd⟩ := Option.map_eq_some'.1 heq
          rcases shcDetour_snd cfg g goal _ _ _ _ hb with hmem | ⟨b0, hb0, _⟩
          · exact h.app (hbd ▸ hmem)
          · cases hb0
        · split
          · split
            · rename_i hcand
              exact h.app ((List.mem_filter.1 (choiceO_mem _ _ fun hnil => by
                rw [hnil] at hcand; simp at hcand)).1)
            · split
              · rename_i st4 hosc
                obtain ⟨c, hc, hp, hcur⟩ := shcOscStep_some _ _ _ _ _ hosc
                have h3 : PathSt cfg g s st4.path st4.cur := by
                  rw [hp, hcur]
                  exact h.app hc
                exact h3
              · exact h
          · split
            · rename_i st4 hosc
              obtain ⟨c, hc, hp, hcur⟩ := shcOscStep_some _ _ _ _ _ hosc
              have h3 : PathSt cfg g s st4.path st4.cur := by
                rw [hp, hcur]
                exact h.app hc
              exact h3
            · exact h

theorem saLoop_inv (cfg : Config) (g : Grid) (goal : Pos) (stl om : Nat) (s : Pos) :
    ∀ (fuel : Nat) (st : SASt), PathSt cfg g s st.path st.cur →
      PathSt cfg g s (saLoop cfg g goal stl om fuel st).path
        (saLoop cfg g goal stl om fuel st).cur := by
  intro fuel
  induction fuel with
  | zero => intro st h; simpa only [saLoop] using h
  | succ n ih =>
    intro st h
    simp only [saLoop]
    split
    · exact h
    · split
      · rename_i st2 heq
        have hb := saBody_path cfg g goal stl om s {st with steps := st.steps + 1} h
        rw [heq] at hb
        exact ih _ hb
      · rename_i st2 heq
        have hb := saBody_path cfg g goal stl om s {st with steps := st.steps + 1} h
        rw [heq] at hb
        exact hb

theorem shcLoop_inv (cfg : Config) (g : Grid) (goal : Pos) (s : Pos) :
    ∀ (fuel : Nat) (st : RunSt), PathSt cfg g s st.path st.cur →
      PathSt cfg g s (shcLoop cfg g goal fuel st).path
        (shcLoop cfg g goal fuel st).cur := by
  intro fuel
  induction fuel with
  | zero => intro st h; simpa only [shcLoop] using h
  | succ n ih =>
    intro st h
    simp only [shcLoop]
    split
    · exact h
    · split
      · rename_i st2 heq
        have hb := shcBody_path cfg g goal s {st with steps := st.steps + 1} h
        rw [heq] at hb
        exact ih _ hb
      · rename_i st2 heq
        have hb := shcBody_path cfg g goal s {st with steps := st.steps + 1} h
        rw [heq] at hb
        exact hb


/-- Both wrappers clean the final path with
`if not path: path=[start]` / `if path[0] != start: path=[start]+path`; on a
loop result (whose path is non-empty and start-headed) this is the
identity. -/
theorem pathst_fixup (cfg : Config) (g : Grid) (s : Pos) (l : List Pos) (cur : Pos)
    (h : PathSt cfg g s l cur) :
    (if (if l.isEmpty then [s] else l).headD (0, 0) ≠ s then
        s :: (if l.isEmpty then [s] else l)
      else (if l.isEmpty then [s] else l)) = l := by
  obtain ⟨h1, -, -⟩ := h
  cases l with
  | nil => cases h1
  | cons a t =>
    have ha : a = s := by simpa using h1
    subst ha
    simp

theorem hill_climbing_path (cfg : Config) (g : Grid) (pl : Placement) (start : Pos)
    (o : Oracle) (ms bp sl vl : Nat) (hstart : is_walkable cfg g start = true) :
    (hill_climbing cfg g pl start o ms bp sl vl).1.head? = some start ∧
    chainOk cfg g (hill_climbing cfg g pl start o ms bp sl vl).1 = true ∧
    ∀ p ∈ (hill_climbing cfg g pl start o ms bp sl vl).1, cellAt g p ≠ WALL := by
  have hp := hcLoop_inv cfg g pl.office bp sl vl start ms
    ⟨start, [start], 0, none, 0, [], fun _ => 0, 0, o⟩ (PathSt.single cfg g start)
  have hfix := pathst_fixup cfg g start _ _ hp
  simp only [hill_climbing]
  rw [hfix]
  exact ⟨hp.1, hp.2.2, chain_nonwall cfg g _ start hp.1 hstart hp.2.2⟩

theorem simulated_annealing_path (cfg : Config) (g : Grid) (pl : Placement) (start : Pos)
    (o : Oracle) (ms stl om : Nat) (hstart : is_walkable cfg g start = true) :
    (simulated_annealing cfg g pl start o ms stl om).1.head? = some start ∧
    chainOk cfg g (simulated_annealing cfg g pl start o ms stl om).1 = true ∧
    ∀ p ∈ (simulated_annealing cfg g pl start o ms stl om).1, cellAt g p ≠ WALL := by
  have hp := saLoop_inv cfg g pl.office stl om start ms
    ⟨start, [start], 0, 0, fun _ => 0, [], o⟩ (PathSt.single cfg g start)
  have hd := dedupConsec_eq_of_chain cfg g _ hp.2.2
  have hfix := pathst_fixup cfg g start _ _ hp
  simp only [simulated_annealing]
  rw [hd, hfix]
  exact ⟨hp.1, hp.2.2, chain_nonwall cfg g _ start hp.1 hstart hp.2.2⟩

/-- A run result eligible as `best_path`: a legal chain whose head is a
walkable run start. -/
def GoodTrial (cfg : Config) (g : Grid) (l : List Pos) : Prop :=
  chainOk cfg g l = true ∧ ∃ s, l.head? = some s ∧ is_walkable cfg g s = true

theorem shcRunOnce_pathst (cfg : Config) (g : Grid) (goal : Pos) (ms : Nat) (sp : Pos)
    (o : Oracle) (steps space : Nat) :
    PathSt cfg g sp (shcRunOnce cfg g goal ms sp o steps space).path
      (shcRunOnce cfg g goal ms sp o steps space).cur :=
  shcLoop_inv cfg g goal sp ms _ (PathSt.single cfg g sp)

theorem shcRestarts_good (cfg : Config) (g : Grid) (goal : Pos) (ms : Nat)
    (cands : List Pos) (hc : ∀ c ∈ cands, is_walkable cfg g c = true)
    (hcne : cands ≠ []) :
    ∀ (r : Nat) (best : List Pos × Nat) (o : Oracle) (steps space : Nat),
      GoodTrial cfg g best.1 →
      GoodTrial cfg g (shcRestarts cfg g goal ms cands r best o steps space).1.1 := by
  intro r
  induction r with
  | zero => intro best o steps space hb; simpa only [shcRestarts] using hb
  | succ n ih =>
    intro best o steps space hb
    simp only [shcRestarts]
    apply ih
    split
    · have hps := shcRunOnce_pathst cfg g goal ms (choiceO cands o).1 (choiceO cands o).2
        steps space
      exact ⟨hps.2.2, (choiceO cands o).1, hps.1, hc _ (choiceO_mem _ _ hcne)⟩
    · exact hb

/-- Case analysis of the final `if best_path and best_path[0] != start`
fixup of `stochastic_hill_climbing`, for any best path that is a legal
chain with a walkable head. -/
theorem shc_fixup_cases (cfg : Config) (g : Grid) (start : Pos) (bp : List Pos)
    (s1 : Pos) (hstart : is_walkable cfg g start = true)
    (hbchain : chainOk cfg g bp = true) (hbhead : bp.head? = some s1)
    (hbwalk : is_walkable cfg g s1 = true) :
    (if ¬bp.isEmpty = true ∧ bp.headD (0, 0) ≠ start then
        start :: bp.filter (fun p => p != start) else bp).head? = some start ∧
    (∀ p ∈ (if ¬bp.isEmpty = true ∧ bp.headD (0, 0) ≠ start then
        start :: bp.filter (fun p => p != start) else bp), cellAt g p ≠ WALL) ∧
    ∃ t, chainOk cfg g t = true ∧
      ((if ¬bp.isEmpty = true ∧ bp.headD (0, 0) ≠ start then
          start :: bp.filter (fun p => p != start) else bp) = t ∨
        (if ¬bp.isEmpty = true ∧ bp.headD (0, 0) ≠ start then
          start :: bp.filter (fun p => p != start) else bp) =
          start :: t.filter (fun p => p != start)) := by
  split
  · refine ⟨rfl, ?_, bp, hbchain, Or.inr rfl⟩
    intro p hp
    rcases List.mem_cons.1 hp with rfl | hp2
    · exact walkable_ne_wall hstart
    · exact chain_nonwall cfg g bp s1 hbhead hbwalk hbchain p (List.mem_filter.1 hp2).1
  · rename_i hcond
    have hbne : bp ≠ [] := fun hnil => by rw [hnil] at hbhead; cases hbhead
    have hhd : bp.headD (0, 0) = start := by
      by_contra hne2
      exact hcond ⟨fun hemp => hbne (List.isEmpty_iff.1 hemp), hne2⟩
    have hh2 : bp.head? = some start := by
      cases bp with
      | nil => exact absurd rfl hbne
      | cons a t =>
        have ha : a = start := by simpa using hhd
        simp [ha]
    exact ⟨hh2, fun p hp => chain_nonwall cfg g bp s1 hbhead hbwalk hbchain p hp,
      bp, hbchain, Or.inl rfl⟩

theorem stochastic_hill_climbing_path (cfg : Config) (g : Grid) (pl : Placement)
    (start : Pos) (o : Oracle) (ms rs : Nat) (hstart : is_walkable cfg g start = true) :
    (stochastic_hill_climbing cfg g pl start o ms rs).1.head? = some start ∧
    (∀ p ∈ (stochastic_hill_climbing cfg g pl start o ms rs).1, cellAt g p ≠ WALL) ∧
    ∃ t, chainOk cfg g t = true ∧
      ((stochastic_hill_climbing cfg g pl start o ms rs).1 = t ∨
        (stochastic_hill_climbing cfg g pl start o ms rs).1 =
          start :: t.filter (fun p => p != start)) := by
  have hps := shcRunOnce_pathst cfg g pl.office ms start o 0 0
  have hcand : ∀ c ∈ (if (shcCandidates cfg g).isEmpty then [start]
      else shcCandidates cfg g), is_walkable cfg g c = true := by
    intro c hcel
    split at hcel
    · have hcs : c = start := by simpa using hcel
      exact hcs ▸ hstart
    · have h2 := (List.mem_filter.1 hcel).2
      simp only [Bool.and_eq_true] at h2
      exact h2.1
  have hcne : (if (shcCandidates cfg g).isEmpty then [start]
      else shcCandidates cfg g) ≠ [] := by
    split
    · simp
    · rename_i hf
      intro hnil
      rw [hnil] at hf
      simp at hf
  have hbest := shcRestarts_good cfg g pl.office ms _ hcand hcne rs
    ((shcRunOnce cfg g pl.office ms start o 0 0).path,
      manhattanN ((shcRunOnce cfg g pl.office ms start o 0 0).path.getLastD (0, 0))
        pl.office)
    (shcRunOnce cfg g pl.office ms start o 0 0).o
    (shcRunOnce cfg g pl.office ms start o 0 0).steps
    (shcRunOnce cfg g pl.office ms start o 0 0).space
    ⟨hps.2.2, start, hps.1, hstart⟩
  obtain ⟨hbchain, s1, hbhead, hbwalk⟩ := hbest
  simp only [stochastic_hill_climbing]
  exact shc_fixup_cases cfg g start _ s1 hstart hbchain hbhead hbwalk


/-- **C2.** For every path returned by any of the three search strategies,
the first element equals the given start and no element is a Wall cell
(given a walkable start); `hill_climbing` and `simulated_annealing` paths
are moreover legal-move chains throughout.  For
`stochastic_hill_climbing` the chain property holds only up to the final
`[start] + [p for p in best_path if p != start]` fixup: the returned path
is a legal chain `t`, or is `start` prepended to such a chain (with the
occurrences of `start` filtered out of it), which — when a restart attempt
wins — makes the first pair an illegal jump (see the counterexample). -/
theorem search_path_legality (cfg : Config) (g : Grid) (pl : Placement) (start : Pos)
    (o1 o2 o3 : Oracle) (ms1 bp sl vl ms2 stl om ms3 rs : Nat)
    (hstart : is_walkable cfg g start = true) :
    ((hill_climbing cfg g pl start o1 ms1 bp sl vl).1.head? = some start ∧
      chainOk cfg g (hill_climbing cfg g pl start o1 ms1 bp sl vl).1 = true ∧
      ∀ p ∈ (hill_climbing cfg g pl start o1 ms1 bp sl vl).1, cellAt g p ≠ WALL) ∧
    ((simulated_annealing cfg g pl start o2 ms2 stl om).1.head? = some start ∧
      chainOk cfg g (simulated_annealing cfg g pl start o2 ms2 stl om).1 = true ∧
      ∀ p ∈ (simulated_annealing cfg g pl start o2 ms2 stl om).1, cellAt g p ≠ WALL) ∧
    ((stochastic_hill_climbing cfg g pl start o3 ms3 rs).1.head? = some start ∧
      (∀ p ∈ (stochastic_hill_climbing cfg g pl start o3 ms3 rs).1, cellAt g p ≠ WALL) ∧
      ∃ t, chainOk cfg g t = true ∧
        ((stochastic_hill_climbing cfg g pl start o3 ms3 rs).1 = t ∨
          (stochastic_hill_climbing cfg g pl start o3 ms3 rs).1 =
            start :: t.filter (fun p => p != start))) :=
  ⟨hill_climbing_path cfg g pl start o1 ms1 bp sl vl hstart,
   simulated_annealing_path cfg g pl start o2 ms2 stl om hstart,
   stochastic_hill_climbing_path cfg g pl start o3 ms3 rs hstart⟩

theorem search_path_legality_witness :
    is_walkable cfg0 g0 ((0 : Int), (0 : Int)) = true ∧
    chainOk cfg0 g0 (hill_climbing cfg0 g0 pl0 ((0 : Int), (0 : Int)) [] 0 0 0 0).1 = true :=
  ⟨by decide,
   (search_path_legality cfg0 g0 pl0 ((0 : Int), (0 : Int)) [] [] [] 0 0 0 0 0 0 0 0 0
     (by decide)).1.2.1⟩

/-- A configuration with five Main walls, used to build a world whose wall
pocket defeats the primary stochastic hill-climbing run. -/
def cfg2c : Config := ⟨7, 4, 5, 0, 0, 0⟩

/-- Generation randomness: start `(0,0)`, Main walls
`(2,4),(4,4),(3,5),(5,3),(4,2)`, office `(11,4)`, chair `(11,2)`. -/
def oGen2 : Oracle :=
  [0, 12, 21, 17, 23, 18] ++ List.replicate 29 0 ++ List.replicate 19 0 ++
    List.replicate 29 0 ++ [2] ++ List.replicate 14 0 ++ [0]

def g2c : Grid :=
  [[0, 0, 0, 0, 0, 0, 0, 0, 0, 0, 0, 0, 0, 0],
   [0, 0, 0, 0, 0, 0, 0, 0, 0, 0, 0, 0, 0, 0],
   [0, 0, 0, 0, 1, 0, 0, 0, 0, 0, 0, 4, 0, 0],
   [0, 0, 0, 0, 0, 1, 0, 2, 2, 2, 0, 0, 0, 0],
   [0, 0, 1, 0, 1, 0, 0, 0, 0, 0, 0, 5, 0, 0],
   [0, 0, 0, 1, 0, 0, 0, 0, 0, 0, 0, 0, 0, 0],
   [0, 0, 0, 0, 0, 0, 0, 0, 0, 0, 0, 0, 0, 0]]

def pl2c : Placement :=
  { start := (0, 0),
    walls_main := [(2, 4), (4, 4), (3, 5), (5, 3), (4, 2)],
    walls_pab := [], angry_main := [], angry_pab := [],
    chair := (11, 2), office := (11, 4),
    bridge := [(7, 3), (8, 3), (9, 3)] }

/-- Search randomness: the primary run is steered into the wall pocket at
`(3,3)/(3,4)/(4,3)` and breaks there without reaching the office; all six
restarts pick candidate 25, the bridge entrance `(6,3)`, and walk straight
to the office. -/
def oSHC2 : Oracle :=
  [0, 1, 0, 1, 0, 0, 1, 0, 0, 0, 1,
   25, 0, 0, 0, 0, 0, 0,  25, 0, 0, 0, 0, 0, 0,  25, 0, 0, 0, 0, 0, 0,
   25, 0, 0, 0, 0, 0, 0,  25, 0, 0, 0, 0, 0, 0,  25, 0, 0, 0, 0, 0, 0]

/-- **C2 counterexample.** On a world produced by `build_world` itself, the
path returned by `stochastic_hill_climbing` from the placement's start is
`[(0,0), (6,3), …]`: a winning restart ran from `(6,3)` and the controller
fixup merely prepends the start, so the first pair is not a legal move and
the path is not a chain. -/
theorem search_path_legality_counterexample :
    build_world cfg2c 1 oGen2 = .ok (g2c, pl2c) ∧
    (stochastic_hill_climbing cfg2c g2c pl2c pl2c.start oSHC2).1 =
      [(0, 0), (6, 3), (7, 3), (8, 3), (9, 3), (10, 3), (11, 3), (11, 4)] ∧
    chainOk cfg2c g2c (stochastic_hill_climbing cfg2c g2c pl2c pl2c.start oSHC2).1 =
      false :=
  ⟨by rfl, by rfl, by rfl⟩

end OHRace
